import Mathlib

/-!
# site-fetch: a bounded-depth crawler

A shallow embedding of `main.go` (the URL normaliser `sanitize`, the attribute
classifier `mapAssetsAndLinks`, the recursive `crawl` and `main`) together with
theorems about the properties its specification states.

Conventions of the embedding:

* a Go `string` is the list of its characters (`Str`); the only string
  operations of the program are equality, concatenation, `strings.HasPrefix`,
  `strings.Split(_, "?")[0]` and `strings.Trim(_, "/")`; Go runs them byte by
  byte, which on UTF-8 text is the same as character by character, `?` and `/`
  being ASCII;
* a Go `map[string]V` is an association list (`GoMap`); `m[k] = v` is
  `GoMap.set`, which overwrites in place or appends, so a map built by `set`
  holds each key once; `range m` visits the entries in list order (Go leaves
  that order unspecified, so theorems speak of membership only);
* `http.Get` followed by the status test and `tokenize` is one collaborator
  `fetch : Str → FetchResult`;
* `crawl` runs the goroutines it spawns one after the other, in the order of
  `pageMap.Links`, each to completion (the `WaitGroup` join); the relation
  `Step` further down interleaves them, and `sequential_run_interleaved` shows
  the sequential run to be one of the interleaved runs, and a race-free one;
* `os.Exit` is recorded in the `exit` field of the `World`; a world that has
  exited takes no further step; `fmt.Println` and `fmt.Printf` append to the
  `stdout` field.
-/

namespace SiteFetch

/-! ## Strings -/

/-- A Go string, as the list of its characters. -/
abbrev Str := List Char

/-- Go `strings.HasPrefix(s, pre)`. -/
def hasPrefix (s pre : Str) : Bool := pre.isPrefixOf s

/-- Go `strings.Split(s, sep)` for a separator of one character: the pieces of
`s` between the occurrences of `sep` (always at least one piece). -/
def split : Str → Char → List Str
  | [], _ => [[]]
  | c :: rest, sep =>
    if c = sep then [] :: split rest sep
    else match split rest sep with
      | [] => [[c]]
      | p :: ps => (c :: p) :: ps

/-- Go `trimLeftByte(s, c)`: drop the leading run of `c`. -/
def trimLeftByte : Str → Char → Str
  | [], _ => []
  | x :: rest, c => if x = c then trimLeftByte rest c else x :: rest

/-- Go `trimRightByte(s, c)`: drop the trailing run of `c`. -/
def trimRightByte (s : Str) (c : Char) : Str := (trimLeftByte s.reverse c).reverse

/-- Go `strings.Trim(s, cutset)` for a cutset of one ASCII character, which the
library computes as `trimLeftByte(trimRightByte(s, c), c)`. -/
def trim (s : Str) (c : Char) : Str := trimLeftByte (trimRightByte s c) c

/-- The function `sanitize` of `main.go`:
`strings.Trim(strings.Split(u, "?")[0], "/")`. -/
def sanitize (u : Str) : Str :=
  let sanitized := (split u '?').headD []
  let sanitized := trim sanitized '/'
  sanitized

/-! ## Go maps -/

/-- A Go `map[string]V`: an association list. -/
abbrev GoMap (V : Type) := List (Str × V)

/-- The keys of a map. -/
def GoMap.keys {V : Type} (m : GoMap V) : List Str := m.map Prod.fst

/-- Go `v, ok := m[k]`. -/
def GoMap.get? {V : Type} : GoMap V → Str → Option V
  | [], _ => none
  | (k', v) :: rest, k => if k' = k then some v else GoMap.get? rest k

/-- Go `_, exists := m[k]`. -/
def GoMap.contains {V : Type} (m : GoMap V) (k : Str) : Bool := (m.get? k).isSome

/-- Go `m[k] = v`: overwrite the entry of `k`, or add one. -/
def GoMap.set {V : Type} : GoMap V → Str → V → GoMap V
  | [], k, v => [(k, v)]
  | (k', v') :: rest, k, v =>
    if k' = k then (k, v) :: rest else (k', v') :: GoMap.set rest k v

/-! ## The attribute classifier -/

/-- Type `html.Attribute` of `golang.org/x/net/html`. -/
structure Attribute where
  Namespace : Str
  Key : Str
  Val : Str
  deriving DecidableEq, Repr

/-- Type `PageMap` of `main.go`. -/
structure PageMap where
  url : Str
  Assets : List Str
  Links : List Str
  deriving DecidableEq, Repr

/-- The body of the first loop of `mapAssetsAndLinks`: what one attribute does
to the `objects` map. -/
def classifyToken (url : Str) (objects : GoMap Str) (token : Attribute) : GoMap Str :=
  if token.Key = "href".toList then
    if token.Val = "/".toList then objects
    else if hasPrefix token.Val "/".toList then
      let object := sanitize token.Val
      objects.set (url ++ "/".toList ++ object) "link".toList
    else if hasPrefix token.Val url then
      let object := sanitize token.Val
      objects.set object "link".toList
    else objects
  else if token.Key = "src".toList then
    if hasPrefix token.Val "/".toList then
      let object := sanitize token.Val
      objects.set (url ++ "/".toList ++ object) "asset".toList
    else
      let object := sanitize token.Val
      objects.set object "asset".toList
  else objects

/-- The body of the second loop of `mapAssetsAndLinks`: append one entry of
`objects` to the list its tag names. -/
def collectObject (pm : PageMap) (entry : Str × Str) : PageMap :=
  if entry.2 = "link".toList then { pm with Links := pm.Links ++ [entry.1] }
  else if entry.2 = "asset".toList then { pm with Assets := pm.Assets ++ [entry.1] }
  else pm

/-- The function `mapAssetsAndLinks` of `main.go`. -/
def mapAssetsAndLinks (t : List Attribute) (url : Str) : PageMap :=
  let pm : PageMap := { url := url, Assets := [], Links := [] }
  let objects : GoMap Str := t.foldl (classifyToken url) []
  objects.foldl collectObject pm

/-! ## The crawl -/

/-- What `http.Get` followed by the status test and `tokenize` yields for a URL:
a `200 OK` response whose body tokenizes to `tokens`, a response with another
status, or a transport error (`err != nil`). -/
inductive FetchResult where
  | ok (tokens : List Attribute)
  | non200
  | transportError
  deriving DecidableEq, Repr

/-- The global `config` of `main.go`, after `init`. -/
structure Config where
  url : Str
  depth : Int
  deriving DecidableEq, Repr

/-- Type `CrawlRequest` of `main.go`. -/
structure CrawlRequest where
  Url : Str
  Depth : Int
  deriving DecidableEq, Repr

/-- The observable steps of a run: a call of `http.Get`, an assignment
`SiteMap.Map[url] = pageMap`, and a `go asyncCrawl(request, wg)`. -/
inductive Event where
  | fetch (url : Str)
  | store (url : Str)
  | spawn (request : CrawlRequest)
  deriving DecidableEq, Repr

/-- What the process writes to standard output: the line of `fmt.Println(err)`
for the failed URL, and the final rendering of the site map. -/
inductive Output where
  | errorLine (url : Str)
  | siteMapJson (siteMap : GoMap PageMap)
  deriving DecidableEq, Repr

/-- The state of the process: the global `SiteMap.Map`, the steps taken so far,
the standard output so far, and the exit code once `os.Exit` has been called. -/
structure World where
  Map : GoMap PageMap
  trace : List Event
  stdout : List Output
  exit : Option Nat
  deriving DecidableEq, Repr

/-- The state in which `main` starts: an empty `SiteMap.Map`. -/
def World.init : World := { Map := [], trace := [], stdout := [], exit := none }

/-- The URL of a call of `http.Get`. -/
def Event.fetchUrl : Event → Option Str
  | .fetch u => some u
  | _ => none

/-- The key of an assignment in `SiteMap.Map`. -/
def Event.storeUrl : Event → Option Str
  | .store u => some u
  | _ => none

/-- The request of a `go asyncCrawl`. -/
def Event.spawnRequest : Event → Option CrawlRequest
  | .spawn r => some r
  | _ => none

/-- The URLs handed to `http.Get`, in order. -/
def World.fetched (w : World) : List Str := w.trace.filterMap Event.fetchUrl

/-- The keys assigned in `SiteMap.Map`, in order. -/
def World.stored (w : World) : List Str := w.trace.filterMap Event.storeUrl

/-- The requests handed to `go asyncCrawl`, in order. -/
def World.spawned (w : World) : List CrawlRequest := w.trace.filterMap Event.spawnRequest

/-- Whether a fetch yields a `200 OK` page. -/
def FetchResult.isOk : FetchResult → Bool
  | .ok _ => true
  | _ => false

/-- The function `crawl` of `main.go`, with the recursion measured by `fuel`;
`crawl` below supplies `request.Depth.toNat`, which is exactly what the
recursion consumes (`crawl_eq` is the recursion equation of the source). The
loop over `pageMap.Links` spawns every child and the join runs them:
sequentialised, child after child in the order of `Links`. This is one schedule
of the program, and a race-free one (`sequential_raceFree`); what is to hold of
every schedule is stated over the relation `Step` further down. -/
def crawlFuel (fetch : Str → FetchResult) (config : Config) :
    Nat → CrawlRequest → World → World
  | 0, _, w => w
  | fuel + 1, request, w =>
    if w.exit.isSome then w
    else if request.Depth ≤ 0 then w
    else
      let depth := request.Depth - 1
      if w.Map.contains request.Url then w
      else
        let w := { w with trace := w.trace ++ [Event.fetch request.Url] }
        match fetch request.Url with
        | .transportError =>
          let w := { w with stdout := w.stdout ++ [Output.errorLine request.Url] }
          if depth + 1 = config.depth then { w with exit := some 1 }
          else w
        | .non200 => w
        | .ok tokens =>
          let pageMap := mapAssetsAndLinks tokens config.url
          let w := { w with Map := w.Map.set request.Url pageMap,
                            trace := w.trace ++ [Event.store request.Url] }
          let w := { w with trace := w.trace ++
            pageMap.Links.map fun url => Event.spawn { Url := url, Depth := depth } }
          pageMap.Links.foldl
            (fun w url => crawlFuel fetch config fuel { Url := url, Depth := depth } w) w

/-- The function `crawl` of `main.go` in its sequential schedule (the returned
map is the `Map` of the resulting world). -/
def crawl (fetch : Str → FetchResult) (config : Config) (request : CrawlRequest)
    (w : World) : World :=
  crawlFuel fetch config request.Depth.toNat request w

/-- What a finished process leaves behind. -/
structure Process where
  exitCode : Nat
  stdout : List Output
  deriving DecidableEq, Repr

/-- The function `main` of `main.go`: crawl from the seed, then print the map. -/
def main (fetch : Str → FetchResult) (config : Config) : Process :=
  let w := crawl fetch config { Url := config.url, Depth := config.depth } World.init
  match w.exit with
  | some code => { exitCode := code, stdout := w.stdout }
  | none => { exitCode := 0, stdout := w.stdout ++ [Output.siteMapJson w.Map] }

/-! ## Specification-side definitions -/

/-- Written after the specification of the normaliser: the part of `x` before
its first `?`, with all leading and all trailing `/` removed. -/
def normalizeSpec (x : Str) : Str :=
  ((x.takeWhile fun c => c != '?').dropWhile fun c => c == '/').rdropWhile fun c => c == '/'

/-- Written after the specification of the classifier: the candidate URL of one
attribute for the base URL `b`, if it has one. -/
def candidate (b : Str) (a : Attribute) : Option Str :=
  if a.Key = "href".toList then
    if a.Val = "/".toList then none
    else if "/".toList <+: a.Val then some (b ++ "/".toList ++ sanitize a.Val)
    else if b <+: a.Val then some (sanitize a.Val)
    else none
  else if a.Key = "src".toList then
    if "/".toList <+: a.Val then some (b ++ "/".toList ++ sanitize a.Val)
    else some (sanitize a.Val)
  else none

/-- The last attribute of `t` whose candidate for the base URL `b` is `s`. -/
def lastWithCandidate (t : List Attribute) (b s : Str) : Option Attribute :=
  t.reverse.find? fun a => decide (candidate b a = some s)

/-- The tag the first loop stores for an attribute: `"link"` for an `href`,
`"asset"` otherwise (only a `src` reaches the map otherwise). -/
def tagOf (a : Attribute) : Str :=
  if a.Key = "href".toList then "link".toList else "asset".toList

/-- One registry extends another: every record of the first is a record of the
second. -/
def MapExt (m m' : GoMap PageMap) : Prop :=
  ∀ u pm, m.get? u = some pm → m'.get? u = some pm

/-- `Reach m seed k u`: the URL `u` is reached from `seed` by a path of `k`
link-hops, where one hop goes from a page recorded in the registry `m` to an
entry of its `Links`. -/
inductive Reach (m : GoMap PageMap) (seed : Str) : Nat → Str → Prop
  | start : Reach m seed 0 seed
  | hop {k : Nat} {u v : Str} {pm : PageMap} :
      Reach m seed k u → m.get? u = some pm → v ∈ pm.Links → Reach m seed (k + 1) v

/-- The bookkeeping of a run: the stored keys never repeat, they are the keys
of the registry, and they are the fetched URLs whose fetch succeeded. -/
def Books (fetch : Str → FetchResult) (w : World) : Prop :=
  w.stored.Nodup ∧ (∀ u, u ∈ w.stored ↔ u ∈ w.Map.keys) ∧
    w.fetched.filter (fun u => (fetch u).isOk) = w.stored

/-! ## The crawl with its goroutines interleaved

`crawl` above runs the children of a page one after the other. The program
starts them as goroutines; the relation `Step` lets any goroutine take its next
step at any time. A goroutine is at one of three points of `crawl`: at its
entry, before `http.Get` (both guards passed, `Depth` decremented), or before
the assignment to `SiteMap.Map`. The wait of a parent for its children touches
no state and is left out.

Between the registry test and the registry write a goroutine is *in flight* for
its URL. The program does not hold the lock from the test to the write, so two
goroutines can be in flight for the same URL, and both fetch it: the race. A
run is race-free when that never happens (`RaceFreeStep`). -/

/-- A goroutine running `crawl`, by the point it has reached. -/
inductive Task where
  | called (request : CrawlRequest)
  | fetching (request : CrawlRequest)
  | storing (request : CrawlRequest) (pageMap : PageMap)
  deriving DecidableEq, Repr

/-- The state of the interleaved run: the global `SiteMap.Map`, the goroutines
that have not finished, the URLs handed to `http.Get` so far, and whether
`os.Exit` has been called. -/
structure Pool where
  Map : GoMap PageMap
  tasks : List Task
  fetched : List Str
  exited : Bool
  deriving DecidableEq, Repr

/-- The start of `main`: an empty map and the one call `crawl(seed, d)`. -/
def Pool.start (seed : Str) (d : Int) : Pool :=
  { Map := [], tasks := [Task.called { Url := seed, Depth := d }], fetched := [],
    exited := false }

/-- One step of one goroutine of the pool. -/
inductive Step (fetch : Str → FetchResult) (config : Config) : Pool → Pool → Prop
  | depthExhausted (s : Pool) (pre post : List Task) (r : CrawlRequest) :
      s.exited = false → s.tasks = pre ++ Task.called r :: post → r.Depth ≤ 0 →
      Step fetch config s { s with tasks := pre ++ post }
  | alreadyVisited (s : Pool) (pre post : List Task) (r : CrawlRequest) :
      s.exited = false → s.tasks = pre ++ Task.called r :: post → 0 < r.Depth →
      s.Map.contains r.Url = true →
      Step fetch config s { s with tasks := pre ++ post }
  | enter (s : Pool) (pre post : List Task) (r : CrawlRequest) :
      s.exited = false → s.tasks = pre ++ Task.called r :: post → 0 < r.Depth →
      s.Map.contains r.Url = false →
      Step fetch config s
        { s with tasks := pre ++ Task.fetching { Url := r.Url, Depth := r.Depth - 1 } :: post }
  | fetchError (s : Pool) (pre post : List Task) (r : CrawlRequest) :
      s.exited = false → s.tasks = pre ++ Task.fetching r :: post →
      fetch r.Url = .transportError →
      Step fetch config s
        { s with tasks := pre ++ post, fetched := s.fetched ++ [r.Url],
                 exited := decide (r.Depth + 1 = config.depth) }
  | fetchSkip (s : Pool) (pre post : List Task) (r : CrawlRequest) :
      s.exited = false → s.tasks = pre ++ Task.fetching r :: post →
      fetch r.Url = .non200 →
      Step fetch config s { s with tasks := pre ++ post, fetched := s.fetched ++ [r.Url] }
  | fetchOk (s : Pool) (pre post : List Task) (r : CrawlRequest) (tokens : List Attribute) :
      s.exited = false → s.tasks = pre ++ Task.fetching r :: post →
      fetch r.Url = .ok tokens →
      Step fetch config s
        { s with tasks := pre ++ Task.storing r (mapAssetsAndLinks tokens config.url) :: post,
                 fetched := s.fetched ++ [r.Url] }
  | store (s : Pool) (pre post : List Task) (r : CrawlRequest) (pageMap : PageMap) :
      s.exited = false → s.tasks = pre ++ Task.storing r pageMap :: post →
      Step fetch config s
        { Map := s.Map.set r.Url pageMap,
          tasks := pre ++ post ++
            pageMap.Links.map (fun url => Task.called { Url := url, Depth := r.Depth }),
          fetched := s.fetched,
          exited := s.exited }

/-- The states an interleaved run of `crawl(seed, d)` can be in. -/
def Reachable (fetch : Str → FetchResult) (config : Config) (seed : Str) (d : Int)
    (s : Pool) : Prop :=
  Relation.ReflTransGen (Step fetch config) (Pool.start seed d) s

/-- The URL a goroutine is in flight for: it has passed the registry test for
that URL (`main.go:89`) and has not yet written the registry (`main.go:123`)
or returned. -/
def Task.flightUrl : Task → Option Str
  | .called _ => none
  | .fetching r => some r.Url
  | .storing r _ => some r.Url

/-- The URLs the goroutines of the pool are in flight for, one entry a goroutine. -/
def Pool.inFlight (s : Pool) : List Str := s.tasks.filterMap Task.flightUrl

/-- A state without the race of the registry: no two goroutines are in flight
for the same URL, that is, no goroutine has passed the registry test for a URL
while another, past the same test, has not yet written or returned. -/
def Pool.RaceFree (s : Pool) : Prop := s.inFlight.Nodup

/-- One step of a race-free run: a step of one goroutine that does not lead
into a race. -/
def RaceFreeStep (fetch : Str → FetchResult) (config : Config) (s s' : Pool) : Prop :=
  Step fetch config s s' ∧ s'.RaceFree

/-- The states a race-free interleaved run of `crawl(seed, d)` can be in. -/
def RaceFreeReachable (fetch : Str → FetchResult) (config : Config) (seed : Str) (d : Int)
    (s : Pool) : Prop :=
  Relation.ReflTransGen (RaceFreeStep fetch config) (Pool.start seed d) s

/-- The invariant of the race-free run behind the single fetch: no race, the
successfully fetched URLs never repeat in the log, each of them is recorded or
about to be stored, and no goroutine is in flight for a recorded URL. -/
structure FetchInv (fetch : Str → FetchResult) (s : Pool) : Prop where
  raceFree : s.inFlight.Nodup
  okOnce : (s.fetched.filter fun u => (fetch u).isOk).Nodup
  accounted : ∀ u ∈ s.fetched, (fetch u).isOk = true →
    u ∈ s.Map.keys ∨ ∃ r pm, Task.storing r pm ∈ s.tasks ∧ r.Url = u
  fresh : ∀ u ∈ s.inFlight, u ∉ s.Map.keys

/-- A list of goroutines none of which is in flight. -/
def Quiet (ts : List Task) : Prop := ts.filterMap Task.flightUrl = []

/-- What the depth bound asks of a goroutine: its URL is within the hops its
depth leaves, and a page about to be stored is what the fetch of its URL gives. -/
def TaskOk (fetch : Str → FetchResult) (config : Config) (seed : Str) (d : Int)
    (m : GoMap PageMap) : Task → Prop
  | .called r => ∃ k : Nat, (k : Int) + r.Depth ≤ d ∧ Reach m seed k r.Url
  | .fetching r => ∃ k : Nat, (k : Int) + r.Depth + 1 ≤ d ∧ 0 ≤ r.Depth ∧ Reach m seed k r.Url
  | .storing r pm =>
    (∃ k : Nat, (k : Int) + r.Depth + 1 ≤ d ∧ 0 ≤ r.Depth ∧ Reach m seed k r.Url) ∧
      ∃ tokens, fetch r.Url = .ok tokens ∧ pm = mapAssetsAndLinks tokens config.url

/-- The invariant of the interleaved run behind the depth bound. -/
structure PoolInv (fetch : Str → FetchResult) (config : Config) (seed : Str) (d : Int)
    (s : Pool) : Prop where
  records : ∀ u pm, s.Map.get? u = some pm →
    ∃ tokens, fetch u = .ok tokens ∧ pm = mapAssetsAndLinks tokens config.url
  keys : ∀ u ∈ s.Map.keys, ∃ k : Nat, (k : Int) < d ∧ Reach s.Map seed k u
  tasks : ∀ t ∈ s.tasks, TaskOk fetch config seed d s.Map t

/-! ## Concrete inputs -/

/-- An `href` attribute. -/
def href (v : String) : Attribute := { Namespace := [], Key := "href".toList, Val := v.toList }

/-- A `src` attribute. -/
def src (v : String) : Attribute := { Namespace := [], Key := "src".toList, Val := v.toList }

/-- The attributes of `fakePage` in `main_test.go` (the `expected` of `Test_tokenize`). -/
def testTokens : List Attribute :=
  [href "http://someurl.com", href "http://someurl.com/about", href "http://anotherurl.com",
    src "http://someurl.com/someimg.jpg"]

/-- The base URL of `Test_mapAssetsAndLinks`. -/
def testUrl : Str := "http://someurl.com".toList

/-- The attributes of the page of the specification's scenario. -/
def scenarioTokens : List Attribute :=
  [href "/", href "/about", href "http://other.com", src "http://cdn.com/a.png"]

/-- The seed of the specification's scenario. -/
def scenarioUrl : Str := "http://example.com".toList

/-- A small site: the seed links to `/a` and `/x`, the page `/a` links to `/x`
and back to the seed, and every other URL answers with a status other than 200. -/
def siteFetch (u : Str) : FetchResult :=
  if u = "http://example.com".toList then .ok [href "/a", href "/x"]
  else if u = "http://example.com/a".toList then .ok [href "/x", href "http://example.com"]
  else .non200

/-- The configuration of a crawl of the small site to depth 3. -/
def siteConfig : Config := { url := "http://example.com".toList, depth := 3 }

/-- A page that links to itself. -/
def selfFetch (u : Str) : FetchResult :=
  if u = "http://example.com".toList then .ok [href "http://example.com", href "/about"]
  else .transportError

/-- A site on which every fetch answers `404 Not Found`. -/
def notFoundFetch (_ : Str) : FetchResult := .non200

/-- A site on which every fetch fails in transport. -/
def downFetch (_ : Str) : FetchResult := .transportError

/-- A seed that carries a query string. -/
def queryUrl : Str := "http://example.com/s?q=1".toList

/-- A page with one same-origin link below the seed `queryUrl`. -/
def queryTokens : List Attribute := [href "http://example.com/s?q=1&p=2"]

/-- A page with one link to the root with a query string. -/
def rootQueryTokens : List Attribute := [href "/?q=1"]

/-- The pool after the goroutine of the seed of `selfFetch`, called with depth
1, has entered, fetched and stored its page: the page is recorded and its two
links are called with depth 0. -/
def selfPool : Pool :=
  { Map := [("http://example.com".toList,
      { url := "http://example.com".toList, Assets := [],
        Links := ["http://example.com".toList, "http://example.com/about".toList] })],
    tasks := [Task.called { Url := "http://example.com".toList, Depth := 0 },
      Task.called { Url := "http://example.com/about".toList, Depth := 0 }],
    fetched := ["http://example.com".toList],
    exited := false }

/-- A site in the shape of a diamond: the seed links to `/a` and `/b`, both of
which link to `/c`; all four pages answer `200 OK`. -/
def diamondFetch (u : Str) : FetchResult :=
  if u = "http://example.com".toList then .ok [href "/a", href "/b"]
  else if u = "http://example.com/a".toList then .ok [href "/c"]
  else if u = "http://example.com/b".toList then .ok [href "/c"]
  else if u = "http://example.com/c".toList then .ok []
  else .non200

/-- The configuration of a crawl of the diamond to depth 3. -/
def diamondConfig : Config := { url := "http://example.com".toList, depth := 3 }

/-! ## Lemmas on strings -/

theorem split_headD (u : Str) (sep : Char) :
    (split u sep).headD [] = u.takeWhile fun c => c != sep := by
  induction u with
  | nil => simp [split]
  | cons c rest ih =>
    by_cases h : c = sep
    · simp [split, h]
    · cases hs : split rest sep with
      | nil => simp [split, h, hs] at ih ⊢; exact ih
      | cons p ps => simp [split, h, hs] at ih ⊢; exact ih

theorem trimLeftByte_eq (s : Str) (c : Char) :
    trimLeftByte s c = s.dropWhile fun x => x == c := by
  induction s with
  | nil => simp [trimLeftByte]
  | cons x rest ih =>
    by_cases h : x = c
    · simp [trimLeftByte, h, ih]
    · simp [trimLeftByte, h, List.dropWhile_cons]

theorem trimRightByte_eq (s : Str) (c : Char) :
    trimRightByte s c = s.rdropWhile fun x => x == c := by
  simp [trimRightByte, trimLeftByte_eq, List.rdropWhile]

theorem sanitize_eq (u : Str) :
    sanitize u =
      ((u.takeWhile fun c => c != '?').rdropWhile fun c => c == '/').dropWhile
        fun c => c == '/' := by
  show trimLeftByte (trimRightByte ((split u '?').headD []) '/') '/' = _
  rw [split_headD, trimLeftByte_eq, trimRightByte_eq]

theorem rdropWhile_cons_eq (p : Char → Bool) (x : Char) (l : Str) :
    (x :: l).rdropWhile p =
      if l.rdropWhile p = [] then (if p x then [] else [x]) else x :: l.rdropWhile p := by
  induction l using List.reverseRecOn with
  | nil => simp [List.rdropWhile_singleton]
  | append_singleton l y ih =>
    rw [← List.cons_append, List.rdropWhile_concat, List.rdropWhile_concat]
    by_cases hy : p y
    · simp only [hy, if_true]; exact ih
    · simp [hy]

theorem dropWhile_rdropWhile_comm (p : Char → Bool) (l : Str) :
    (l.rdropWhile p).dropWhile p = (l.dropWhile p).rdropWhile p := by
  induction l with
  | nil => simp
  | cons x l ih =>
    rw [rdropWhile_cons_eq]
    by_cases hx : p x
    · rw [List.dropWhile_cons_of_pos hx, ← ih]
      by_cases hl : l.rdropWhile p = []
      · simp [hl, hx]
      · simp [hl, hx]
    · rw [List.dropWhile_cons_of_neg hx, rdropWhile_cons_eq]
      by_cases hl : l.rdropWhile p = []
      · simp [hl, hx]
      · simp [hl, hx]

theorem sanitize_eq_normalizeSpec (x : Str) : sanitize x = normalizeSpec x := by
  rw [sanitize_eq, dropWhile_rdropWhile_comm]; rfl

theorem sanitize_subset (u : Str) : sanitize u ⊆ u.takeWhile fun c => c != '?' := by
  rw [sanitize_eq]
  exact fun c hc => (List.rdropWhile_prefix _ _).subset (List.dropWhile_subset _ hc)

theorem question_not_mem_sanitize (u : Str) : '?' ∉ sanitize u := by
  intro h
  have := List.mem_takeWhile_imp (sanitize_subset u h)
  simp at this

theorem sanitize_getLast? (u : Str) : (sanitize u).getLast? ≠ some '/' := by
  rw [sanitize_eq, dropWhile_rdropWhile_comm]
  intro h
  have hne : ((u.takeWhile fun c => c != '?').dropWhile fun c => c == '/').rdropWhile
      (fun c => c == '/') ≠ [] := by
    intro h0; rw [h0] at h; simp at h
  have := List.rdropWhile_last_not (fun c => c == '/') _ hne
  rw [List.getLast?_eq_getLast _ hne] at h
  simp only [Option.some.injEq] at h
  simp [h] at this

theorem sanitize_head? (u : Str) : (sanitize u).head? ≠ some '/' := by
  rw [sanitize_eq]
  intro h
  have := List.head?_dropWhile_not (fun c => c == '/')
    ((u.takeWhile fun c => c != '?').rdropWhile fun c => c == '/')
  rw [h] at this
  simp at this

theorem sanitize_idem (x : Str) : sanitize (sanitize x) = sanitize x := by
  have h1 : ((sanitize x).takeWhile fun c => c != '?') = sanitize x := by
    rw [List.takeWhile_eq_self_iff]
    intro c hc
    have : c ≠ '?' := fun h => question_not_mem_sanitize x (h ▸ hc)
    simpa using this
  have h2 : (sanitize x).rdropWhile (fun c => c == '/') = sanitize x := by
    conv_lhs => rw [sanitize_eq, dropWhile_rdropWhile_comm]
    rw [List.rdropWhile_idempotent, ← dropWhile_rdropWhile_comm, ← sanitize_eq]
  have h3 : (sanitize x).dropWhile (fun c => c == '/') = sanitize x := by
    conv_lhs => rw [sanitize_eq]
    rw [List.dropWhile_idempotent, ← sanitize_eq]
  conv_lhs => rw [sanitize_eq]
  rw [h1, h2, h3]

theorem rdropWhile_append_of_last (p : Char → Bool) (b r : Str) (hb : b ≠ [])
    (hl : ¬ p (b.getLast hb)) : (b ++ r).rdropWhile p = b ++ r.rdropWhile p := by
  induction r using List.reverseRecOn with
  | nil => simpa using (List.rdropWhile_eq_self_iff).2 (fun h => by simpa using hl)
  | append_singleton r y ih =>
    rw [← List.append_assoc, List.rdropWhile_concat, List.rdropWhile_concat]
    by_cases hy : p y
    · simp only [hy, if_true]; exact ih
    · simp [hy]

theorem prefix_sanitize (b v : Str) (hq : '?' ∉ b) (hh : b.head? ≠ some '/')
    (hl : b.getLast? ≠ some '/') (hp : b <+: v) : b <+: sanitize v := by
  obtain ⟨r, rfl⟩ := hp
  cases b with
  | nil => exact List.nil_prefix
  | cons x b =>
    have hb : (x :: b) ≠ [] := by simp
    have h1 : ((x :: b ++ r).takeWhile fun c => c != '?') =
        (x :: b) ++ r.takeWhile fun c => c != '?' := by
      rw [show x :: b ++ r = (x :: b) ++ r from rfl]
      apply List.takeWhile_append_of_pos
      intro c hc
      have : c ≠ '?' := fun h => hq (h ▸ hc)
      simpa using this
    have h2 : ¬ (fun c => c == '/') ((x :: b).getLast hb) := by
      intro h
      apply hl
      rw [List.getLast?_eq_getLast _ hb]
      simpa using h
    have hx : ¬ ((fun c => c == '/') x) := by
      intro h
      apply hh
      simpa using h
    rw [sanitize_eq, h1, rdropWhile_append_of_last _ _ _ hb h2, List.cons_append,
      List.dropWhile_cons_of_neg (p := fun c => c == '/') hx]
    exact ⟨_, rfl⟩

/-! ## Lemmas on maps -/

theorem GoMap.keys_cons {V : Type} (k : Str) (v : V) (m : GoMap V) :
    GoMap.keys ((k, v) :: m) = k :: GoMap.keys m := rfl

theorem GoMap.get?_cons {V : Type} (k0 k : Str) (v : V) (m : GoMap V) :
    GoMap.get? ((k0, v) :: m) k = if k0 = k then some v else GoMap.get? m k := rfl

theorem GoMap.set_cons {V : Type} (k0 k : Str) (v0 v : V) (m : GoMap V) :
    GoMap.set ((k0, v0) :: m) k v =
      if k0 = k then (k, v) :: m else (k0, v0) :: GoMap.set m k v := rfl

theorem GoMap.get?_set {V : Type} (m : GoMap V) (k k' : Str) (v : V) :
    (m.set k v).get? k' = if k = k' then some v else m.get? k' := by
  induction m with
  | nil => rfl
  | cons e rest ih =>
    obtain ⟨k0, v0⟩ := e
    rw [GoMap.set_cons]
    by_cases h : k0 = k
    · subst h
      rw [if_pos rfl, GoMap.get?_cons, GoMap.get?_cons]
      by_cases h' : k0 = k'
      · rw [if_pos h', if_pos h']
      · rw [if_neg h', if_neg h', if_neg h']
    · rw [if_neg h, GoMap.get?_cons, GoMap.get?_cons, ih]
      by_cases h' : k0 = k'
      · have : k ≠ k' := fun hk => h (h'.trans hk.symm)
        rw [if_pos h', if_neg this, if_pos h']
      · rw [if_neg h', if_neg h']

theorem GoMap.mem_keys_set {V : Type} (m : GoMap V) (k k' : Str) (v : V) :
    k' ∈ (m.set k v).keys ↔ k' = k ∨ k' ∈ m.keys := by
  induction m with
  | nil =>
    show k' ∈ [k] ↔ k' = k ∨ k' ∈ []
    rw [List.mem_singleton]
    exact ⟨fun h => Or.inl h, fun h => h.elim id (fun h => absurd h (List.not_mem_nil _))⟩
  | cons e rest ih =>
    obtain ⟨k0, v0⟩ := e
    rw [GoMap.set_cons]
    by_cases h : k0 = k
    · subst h
      rw [if_pos rfl, GoMap.keys_cons, GoMap.keys_cons, List.mem_cons]
      tauto
    · rw [if_neg h, GoMap.keys_cons, GoMap.keys_cons, List.mem_cons, List.mem_cons, ih]
      tauto

theorem GoMap.keys_set_nodup {V : Type} (m : GoMap V) (k : Str) (v : V)
    (h : m.keys.Nodup) : (m.set k v).keys.Nodup := by
  induction m with
  | nil => exact List.nodup_singleton k
  | cons e rest ih =>
    obtain ⟨k0, v0⟩ := e
    rw [GoMap.keys_cons, List.nodup_cons] at h
    rw [GoMap.set_cons]
    by_cases hk : k0 = k
    · subst hk
      rw [if_pos rfl, GoMap.keys_cons, List.nodup_cons]
      exact h
    · rw [if_neg hk, GoMap.keys_cons, List.nodup_cons]
      refine ⟨?_, ih h.2⟩
      intro hc
      rcases (GoMap.mem_keys_set rest k k0 v).1 hc with h1 | h1
      · exact hk h1
      · exact h.1 h1

theorem GoMap.get?_isSome_iff {V : Type} (m : GoMap V) (k : Str) :
    (m.get? k).isSome = true ↔ k ∈ m.keys := by
  induction m with
  | nil => exact ⟨fun h => (by cases h), fun h => absurd h (List.not_mem_nil _)⟩
  | cons e rest ih =>
    obtain ⟨k0, v0⟩ := e
    rw [GoMap.get?_cons, GoMap.keys_cons, List.mem_cons]
    by_cases h : k0 = k
    · rw [if_pos h]
      exact ⟨fun _ => Or.inl h.symm, fun _ => rfl⟩
    · rw [if_neg h, ih]
      exact ⟨Or.inr, fun h' => h'.elim (fun e => absurd e.symm h) id⟩

theorem GoMap.contains_iff {V : Type} (m : GoMap V) (k : Str) :
    m.contains k = true ↔ k ∈ m.keys := GoMap.get?_isSome_iff m k

theorem GoMap.mem_keys_of_get? {V : Type} (m : GoMap V) (k : Str) (v : V)
    (h : m.get? k = some v) : k ∈ m.keys := by
  rw [← GoMap.get?_isSome_iff, h]; rfl

theorem GoMap.mem_keys_of_mem {V : Type} (m : GoMap V) (k : Str) (v : V)
    (h : (k, v) ∈ m) : k ∈ m.keys :=
  List.mem_map.2 ⟨(k, v), h, rfl⟩

theorem GoMap.mem_iff_get? {V : Type} (m : GoMap V) (h : m.keys.Nodup) (k : Str) (v : V) :
    (k, v) ∈ m ↔ m.get? k = some v := by
  induction m with
  | nil => exact ⟨fun h => absurd h (List.not_mem_nil _), fun h => (by cases h)⟩
  | cons e rest ih =>
    obtain ⟨k0, v0⟩ := e
    rw [GoMap.keys_cons, List.nodup_cons] at h
    rw [GoMap.get?_cons, List.mem_cons]
    by_cases hk : k0 = k
    · subst hk
      rw [if_pos rfl]
      constructor
      · rintro (h1 | h1)
        · cases h1; rfl
        · exact absurd (GoMap.mem_keys_of_mem rest k0 v h1) h.1
      · intro h1
        cases h1
        exact Or.inl rfl
    · rw [if_neg hk, ← ih h.2]
      constructor
      · rintro (h1 | h1)
        · cases h1; exact absurd rfl hk
        · exact h1
      · exact Or.inr

/-! ## Lemmas on the classifier -/

theorem hasPrefix_iff (s pre : Str) : hasPrefix s pre = true ↔ pre <+: s := by
  unfold hasPrefix
  exact List.isPrefixOf_iff_prefix

theorem classifyToken_eq (b : Str) (o : GoMap Str) (a : Attribute) :
    classifyToken b o a =
      match candidate b a with
      | some k => o.set k (tagOf a)
      | none => o := by
  unfold classifyToken candidate tagOf
  by_cases h1 : a.Key = "href".toList
  · simp only [h1, if_true, Bool.false_eq_true, if_false]
    by_cases h2 : a.Val = "/".toList
    · simp only [h2, if_true, Bool.false_eq_true, if_false]
    · simp only [h2, if_false, Bool.false_eq_true]
      by_cases h3 : "/".toList <+: a.Val
      · simp only [(hasPrefix_iff _ _).2 h3, h3, if_true, Bool.false_eq_true, if_false]
      · have h3' : ¬ hasPrefix a.Val "/".toList = true := fun h => h3 ((hasPrefix_iff _ _).1 h)
        simp only [h3', h3, if_false, Bool.false_eq_true]
        by_cases h4 : b <+: a.Val
        · simp only [(hasPrefix_iff _ _).2 h4, h4, if_true, Bool.false_eq_true, if_false]
        · have h4' : ¬ hasPrefix a.Val b = true := fun h => h4 ((hasPrefix_iff _ _).1 h)
          simp only [h4', h4, if_false, Bool.false_eq_true]
  · simp only [h1, if_false, Bool.false_eq_true]
    by_cases h2 : a.Key = "src".toList
    · simp only [h2, if_true, Bool.false_eq_true, if_false]
      by_cases h3 : "/".toList <+: a.Val
      · simp only [(hasPrefix_iff _ _).2 h3, h3, if_true, Bool.false_eq_true, if_false]
      · have h3' : ¬ hasPrefix a.Val "/".toList = true := fun h => h3 ((hasPrefix_iff _ _).1 h)
        simp only [h3', h3, if_false, Bool.false_eq_true]
    · simp only [h2, if_false, Bool.false_eq_true]

theorem objects_keys_nodup (b : Str) (t : List Attribute) (o : GoMap Str)
    (h : o.keys.Nodup) : (t.foldl (classifyToken b) o).keys.Nodup := by
  induction t generalizing o with
  | nil => exact h
  | cons a t ih =>
    rw [List.foldl_cons]
    apply ih
    rw [classifyToken_eq]
    cases candidate b a with
    | none => exact h
    | some k => exact GoMap.keys_set_nodup o k _ h

theorem objects_get? (b : Str) (t : List Attribute) (o : GoMap Str) (s : Str) :
    (t.foldl (classifyToken b) o).get? s =
      match lastWithCandidate t b s with
      | some a => some (tagOf a)
      | none => o.get? s := by
  induction t generalizing o with
  | nil => rfl
  | cons a t ih =>
    rw [List.foldl_cons, ih]
    unfold lastWithCandidate
    rw [List.reverse_cons, List.find?_append]
    cases hf : t.reverse.find? (fun a => decide (candidate b a = some s)) with
    | some a' => rfl
    | none =>
      rw [classifyToken_eq]
      by_cases hc : candidate b a = some s
      · simp only [hc, Option.none_or, List.find?_cons, decide_True, GoMap.get?_set, if_true]
      · cases hk : candidate b a with
        | none => simp [hk]
        | some k =>
          have : k ≠ s := fun e => hc (by rw [hk, e])
          simp [hk, GoMap.get?_set, this]

theorem collectObject_foldl (objs : GoMap Str) (pm : PageMap) :
    (objs.foldl collectObject pm).Links =
        pm.Links ++ (objs.filter fun e => decide (e.2 = "link".toList)).map Prod.fst ∧
    (objs.foldl collectObject pm).Assets =
        pm.Assets ++ (objs.filter fun e => decide (e.2 = "asset".toList)).map Prod.fst := by
  induction objs generalizing pm with
  | nil => simp
  | cons e rest ih =>
    rw [List.foldl_cons]
    obtain ⟨h1, h2⟩ := ih (collectObject pm e)
    rw [h1, h2]
    unfold collectObject
    by_cases hl : e.2 = "link".toList
    · have ha : e.2 ≠ "asset".toList := by rw [hl]; decide
      rw [if_pos hl, List.filter_cons, List.filter_cons, if_pos (decide_eq_true hl),
        if_neg (by simpa using ha)]
      simp
    · by_cases ha : e.2 = "asset".toList
      · rw [if_neg hl, if_pos ha, List.filter_cons, List.filter_cons,
          if_neg (by simpa using hl), if_pos (decide_eq_true ha)]
        simp
      · rw [if_neg hl, if_neg ha, List.filter_cons, List.filter_cons,
          if_neg (by simpa using hl), if_neg (by simpa using ha)]
        exact ⟨rfl, rfl⟩

theorem mem_Links_iff (t : List Attribute) (b s : Str) :
    s ∈ (mapAssetsAndLinks t b).Links ↔
      (t.foldl (classifyToken b) []).get? s = some "link".toList := by
  have hn := objects_keys_nodup b t [] List.nodup_nil
  unfold mapAssetsAndLinks
  rw [(collectObject_foldl _ _).1, ← GoMap.mem_iff_get? _ hn]
  simp

theorem mem_Assets_iff (t : List Attribute) (b s : Str) :
    s ∈ (mapAssetsAndLinks t b).Assets ↔
      (t.foldl (classifyToken b) []).get? s = some "asset".toList := by
  have hn := objects_keys_nodup b t [] List.nodup_nil
  unfold mapAssetsAndLinks
  rw [(collectObject_foldl _ _).2, ← GoMap.mem_iff_get? _ hn]
  simp

theorem Links_nodup (t : List Attribute) (b : Str) : (mapAssetsAndLinks t b).Links.Nodup := by
  have hn := objects_keys_nodup b t [] List.nodup_nil
  unfold mapAssetsAndLinks
  rw [(collectObject_foldl _ _).1, List.nil_append]
  exact List.Nodup.sublist (List.Sublist.map _ (List.filter_sublist _)) hn

theorem Assets_nodup (t : List Attribute) (b : Str) : (mapAssetsAndLinks t b).Assets.Nodup := by
  have hn := objects_keys_nodup b t [] List.nodup_nil
  unfold mapAssetsAndLinks
  rw [(collectObject_foldl _ _).2, List.nil_append]
  exact List.Nodup.sublist (List.Sublist.map _ (List.filter_sublist _)) hn

theorem candidate_key (b : Str) (a : Attribute) (s : Str) (h : candidate b a = some s) :
    a.Key = "href".toList ∨ a.Key = "src".toList := by
  unfold candidate at h
  by_cases h1 : a.Key = "href".toList
  · exact Or.inl h1
  · by_cases h2 : a.Key = "src".toList
    · exact Or.inr h2
    · rw [if_neg h1, if_neg h2] at h
      cases h

theorem lastWithCandidate_some (t : List Attribute) (b s : Str) (a : Attribute)
    (h : lastWithCandidate t b s = some a) : candidate b a = some s ∧ a ∈ t := by
  unfold lastWithCandidate at h
  have h1 := List.find?_some h
  have h2 := List.mem_of_find?_eq_some h
  exact ⟨by simpa using h1, by simpa using h2⟩

theorem mem_Links_iff_last (t : List Attribute) (b s : Str) :
    s ∈ (mapAssetsAndLinks t b).Links ↔
      ∃ a, lastWithCandidate t b s = some a ∧ a.Key = "href".toList := by
  rw [mem_Links_iff, objects_get?]
  cases h : lastWithCandidate t b s with
  | none => simp [GoMap.get?]
  | some a =>
    by_cases hk : a.Key = "href".toList
    · simp [tagOf, hk]
    · have : "asset".toList ≠ "link".toList := by decide
      simp [tagOf, hk, this]

theorem mem_Assets_iff_last (t : List Attribute) (b s : Str) :
    s ∈ (mapAssetsAndLinks t b).Assets ↔
      ∃ a, lastWithCandidate t b s = some a ∧ a.Key = "src".toList := by
  rw [mem_Assets_iff, objects_get?]
  cases h : lastWithCandidate t b s with
  | none => simp [GoMap.get?]
  | some a =>
    have hc := (lastWithCandidate_some t b s a h).1
    by_cases hk : a.Key = "href".toList
    · have h1 : "link".toList ≠ "asset".toList := by decide
      have h2 : a.Key ≠ "src".toList := by rw [hk]; decide
      simp [tagOf, hk, h1, h2]
    · have h2 : a.Key = "src".toList := (candidate_key b a s hc).resolve_left hk
      simp [tagOf, hk, h2]

theorem Links_sameOrigin (t : List Attribute) (b : Str) (hq : '?' ∉ b)
    (hh : b.head? ≠ some '/') (hl : b.getLast? ≠ some '/') (s : Str)
    (hs : s ∈ (mapAssetsAndLinks t b).Links) : b <+: s := by
  obtain ⟨a, ha, hk⟩ := (mem_Links_iff_last t b s).1 hs
  have hc := (lastWithCandidate_some t b s a ha).1
  unfold candidate at hc
  simp only [hk, if_true] at hc
  by_cases h2 : a.Val = "/".toList
  · simp [h2] at hc
  · simp only [h2, if_false] at hc
    by_cases h3 : "/".toList <+: a.Val
    · simp only [h3, if_true, Option.some.injEq] at hc
      rw [← hc, List.append_assoc]
      exact List.prefix_append _ _
    · simp only [h3, if_false] at hc
      by_cases h4 : b <+: a.Val
      · simp only [h4, if_true, Option.some.injEq] at hc
        rw [← hc]
        exact prefix_sanitize b a.Val hq hh hl h4
      · simp [h4] at hc

/-! ## Lemmas on the crawl -/

theorem foldl_preserves {α β : Type} (P : β → Prop) (f : β → α → β) (l : List α) (b : β)
    (hb : P b) (hf : ∀ b a, a ∈ l → P b → P (f b a)) : P (l.foldl f b) := by
  induction l generalizing b with
  | nil => exact hb
  | cons a l ih =>
    rw [List.foldl_cons]
    exact ih _ (hf b a (List.mem_cons_self a l) hb)
      (fun b' a' ha' hb' => hf b' a' (List.mem_cons_of_mem a ha') hb')

theorem MapExt.refl (m : GoMap PageMap) : MapExt m m := fun _ _ h => h

theorem MapExt.trans {m1 m2 m3 : GoMap PageMap} (h1 : MapExt m1 m2) (h2 : MapExt m2 m3) :
    MapExt m1 m3 := fun u pm h => h2 u pm (h1 u pm h)

theorem MapExt.set (m : GoMap PageMap) (k : Str) (pm : PageMap)
    (h : m.contains k = false) : MapExt m (m.set k pm) := by
  intro u pm' hu
  rw [GoMap.get?_set]
  by_cases hk : k = u
  · subst hk
    unfold GoMap.contains at h
    rw [hu] at h
    cases h
  · rw [if_neg hk]; exact hu

theorem MapExt.keys {m m' : GoMap PageMap} (h : MapExt m m') (u : Str) (hu : u ∈ m.keys) :
    u ∈ m'.keys := by
  rw [← GoMap.get?_isSome_iff] at hu
  cases hg : m.get? u with
  | none => rw [hg] at hu; cases hu
  | some pm => exact GoMap.mem_keys_of_get? m' u pm (h u pm hg)

/-- The recursion equation of `crawl`, as `main.go` writes it. -/
theorem crawl_eq (fetch : Str → FetchResult) (config : Config) (request : CrawlRequest)
    (w : World) :
    crawl fetch config request w =
      if w.exit.isSome then w
      else if request.Depth ≤ 0 then w
      else
        let depth := request.Depth - 1
        if w.Map.contains request.Url then w
        else
          let w := { w with trace := w.trace ++ [Event.fetch request.Url] }
          match fetch request.Url with
          | .transportError =>
            let w := { w with stdout := w.stdout ++ [Output.errorLine request.Url] }
            if depth + 1 = config.depth then { w with exit := some 1 }
            else w
          | .non200 => w
          | .ok tokens =>
            let pageMap := mapAssetsAndLinks tokens config.url
            let w := { w with Map := w.Map.set request.Url pageMap,
                              trace := w.trace ++ [Event.store request.Url] }
            let w := { w with trace := w.trace ++
              pageMap.Links.map fun url => Event.spawn { Url := url, Depth := depth } }
            pageMap.Links.foldl
              (fun w url => crawl fetch config { Url := url, Depth := depth } w) w := by
  unfold crawl
  cases hn : request.Depth.toNat with
  | zero =>
    have : request.Depth ≤ 0 := Int.toNat_eq_zero.1 hn
    simp [crawlFuel, this]
  | succ n =>
    have hd : (request.Depth - 1).toNat = n := by omega
    simp only [crawlFuel, hd]

/-- A proof rule for `crawl`: a property `P` of worlds is kept by a call whose
request satisfies `Pre`, provided each of the three outcomes of the fetch keeps
it, a recorded page hands `Pre` to its children, and `Pre` survives the
registry growing. The registry only grows. -/
theorem crawlFuel_rule (fetch : Str → FetchResult) (config : Config)
    (Pre : CrawlRequest → World → Prop) (P : World → Prop)
    (hMono : ∀ r w w', Pre r w → MapExt w.Map w'.Map → Pre r w')
    (hErr : ∀ r w, 0 < r.Depth → w.exit = none → w.Map.contains r.Url = false →
      fetch r.Url = .transportError → Pre r w → P w →
      P (if r.Depth - 1 + 1 = config.depth then
          { Map := w.Map, trace := w.trace ++ [Event.fetch r.Url],
            stdout := w.stdout ++ [Output.errorLine r.Url], exit := some 1 }
        else
          { Map := w.Map, trace := w.trace ++ [Event.fetch r.Url],
            stdout := w.stdout ++ [Output.errorLine r.Url], exit := w.exit }))
    (hSkip : ∀ r w, 0 < r.Depth → w.exit = none → w.Map.contains r.Url = false →
      fetch r.Url = .non200 → Pre r w → P w →
      P { Map := w.Map, trace := w.trace ++ [Event.fetch r.Url],
          stdout := w.stdout, exit := w.exit })
    (hOk : ∀ r w tokens, 0 < r.Depth → w.exit = none → w.Map.contains r.Url = false →
      fetch r.Url = .ok tokens → Pre r w → P w →
      P { Map := w.Map.set r.Url (mapAssetsAndLinks tokens config.url),
          trace := w.trace ++ [Event.fetch r.Url] ++ [Event.store r.Url] ++
            (mapAssetsAndLinks tokens config.url).Links.map
              (fun url => Event.spawn { Url := url, Depth := r.Depth - 1 }),
          stdout := w.stdout, exit := w.exit } ∧
      ∀ l ∈ (mapAssetsAndLinks tokens config.url).Links,
        Pre { Url := l, Depth := r.Depth - 1 }
          { Map := w.Map.set r.Url (mapAssetsAndLinks tokens config.url),
            trace := w.trace ++ [Event.fetch r.Url] ++ [Event.store r.Url] ++
              (mapAssetsAndLinks tokens config.url).Links.map
                (fun url => Event.spawn { Url := url, Depth := r.Depth - 1 }),
            stdout := w.stdout, exit := w.exit }) :
    ∀ (n : Nat) (r : CrawlRequest) (w : World), Pre r w → P w →
      P (crawlFuel fetch config n r w) ∧ MapExt w.Map (crawlFuel fetch config n r w).Map := by
  intro n
  induction n with
  | zero => intro r w _ hP; exact ⟨hP, MapExt.refl _⟩
  | succ n ih =>
    intro r w hPre hP
    simp only [crawlFuel]
    by_cases hx : w.exit.isSome = true
    · rw [if_pos hx]; exact ⟨hP, MapExt.refl _⟩
    rw [if_neg hx]
    have hx' : w.exit = none := by
      cases he : w.exit with
      | none => rfl
      | some c => rw [he] at hx; exact absurd rfl hx
    by_cases hd : r.Depth ≤ 0
    · rw [if_pos hd]; exact ⟨hP, MapExt.refl _⟩
    rw [if_neg hd]
    have hd' : 0 < r.Depth := not_le.1 hd
    by_cases hc : w.Map.contains r.Url = true
    · rw [if_pos hc]; exact ⟨hP, MapExt.refl _⟩
    rw [if_neg hc]
    have hc' : w.Map.contains r.Url = false := by simpa using hc
    cases hf : fetch r.Url with
    | transportError =>
      refine ⟨hErr r w hd' hx' hc' hf hPre hP, ?_⟩
      by_cases hq : r.Depth - 1 + 1 = config.depth
      · simp only [hq, if_true]; exact MapExt.refl _
      · simp only [hq, if_false]; exact MapExt.refl _
    | non200 => exact ⟨hSkip r w hd' hx' hc' hf hPre hP, MapExt.refl _⟩
    | ok tokens =>
      obtain ⟨hP1, hPre1⟩ := hOk r w tokens hd' hx' hc' hf hPre hP
      have hE1 : MapExt w.Map (w.Map.set r.Url (mapAssetsAndLinks tokens config.url)) :=
        MapExt.set _ _ _ hc'
      have key := foldl_preserves
        (fun w' => P w' ∧
          MapExt (w.Map.set r.Url (mapAssetsAndLinks tokens config.url)) w'.Map)
        (fun w' url => crawlFuel fetch config n { Url := url, Depth := r.Depth - 1 } w')
        (mapAssetsAndLinks tokens config.url).Links _ ⟨hP1, MapExt.refl _⟩
        (fun w' l hl hw' =>
          have h := ih { Url := l, Depth := r.Depth - 1 } w'
            (hMono _ _ _ (hPre1 l hl) hw'.2) hw'.1
          ⟨h.1, MapExt.trans hw'.2 h.2⟩)
      exact ⟨key.1, MapExt.trans hE1 key.2⟩

theorem fetchUrl_spawns (links : List Str) (d : Int) :
    (links.map fun url => Event.spawn { Url := url, Depth := d }).filterMap Event.fetchUrl
      = [] := by
  induction links with
  | nil => rfl
  | cons l links ih => simp [Event.fetchUrl]

theorem storeUrl_spawns (links : List Str) (d : Int) :
    (links.map fun url => Event.spawn { Url := url, Depth := d }).filterMap Event.storeUrl
      = [] := by
  induction links with
  | nil => rfl
  | cons l links ih => simp [Event.storeUrl]

theorem spawnRequest_spawns (links : List Str) (d : Int) :
    (links.map fun url => Event.spawn { Url := url, Depth := d }).filterMap Event.spawnRequest
      = links.map fun url => ({ Url := url, Depth := d } : CrawlRequest) := by
  induction links with
  | nil => rfl
  | cons l links ih => simpa [Event.spawnRequest] using ih

theorem Books.init (fetch : Str → FetchResult) : Books fetch World.init := by
  refine ⟨List.nodup_nil, fun u => ?_, rfl⟩
  simp [World.init, World.stored, GoMap.keys]

theorem crawlFuel_books (fetch : Str → FetchResult) (config : Config) (n : Nat)
    (r : CrawlRequest) (w : World) (h : Books fetch w) :
    Books fetch (crawlFuel fetch config n r w) := by
  refine (crawlFuel_rule fetch config (fun _ _ => True) (Books fetch)
    (fun _ _ _ _ _ => trivial) ?_ ?_ ?_ n r w trivial h).1
  · intro r w _ _ _ hf _ hB
    have key : Books fetch
        { Map := w.Map, trace := w.trace ++ [Event.fetch r.Url],
          stdout := w.stdout ++ [Output.errorLine r.Url], exit := w.exit } := by
      obtain ⟨h1, h2, h3⟩ := hB
      refine ⟨?_, ?_, ?_⟩
      · simpa [World.stored, List.filterMap_append, Event.storeUrl] using h1
      · simpa [World.stored, List.filterMap_append, Event.storeUrl] using h2
      · simpa [World.stored, World.fetched, List.filterMap_append, Event.storeUrl,
          Event.fetchUrl, List.filter_append, hf, FetchResult.isOk] using h3
    by_cases hq : r.Depth - 1 + 1 = config.depth
    · rw [if_pos hq]; exact key
    · rw [if_neg hq]; exact key
  · intro r w _ _ _ hf _ hB
    obtain ⟨h1, h2, h3⟩ := hB
    refine ⟨?_, ?_, ?_⟩
    · simpa [World.stored, List.filterMap_append, Event.storeUrl] using h1
    · simpa [World.stored, List.filterMap_append, Event.storeUrl] using h2
    · simpa [World.stored, World.fetched, List.filterMap_append, Event.storeUrl,
        Event.fetchUrl, List.filter_append, hf, FetchResult.isOk] using h3
  · intro r w tokens _ _ hc hf _ hB
    refine ⟨?_, fun _ _ => trivial⟩
    obtain ⟨h1, h2, h3⟩ := hB
    have hnk : r.Url ∉ w.Map.keys := by
      rw [← GoMap.contains_iff, hc]; simp
    have hns : r.Url ∉ w.stored := fun hm => hnk ((h2 _).1 hm)
    have e1 : (World.stored
        { Map := w.Map.set r.Url (mapAssetsAndLinks tokens config.url),
          trace := w.trace ++ [Event.fetch r.Url] ++ [Event.store r.Url] ++
            (mapAssetsAndLinks tokens config.url).Links.map
              (fun url => Event.spawn { Url := url, Depth := r.Depth - 1 }),
          stdout := w.stdout, exit := w.exit }) = w.stored ++ [r.Url] := by
      simp [World.stored, List.filterMap_append, Event.storeUrl, storeUrl_spawns]
    have e2 : (World.fetched
        { Map := w.Map.set r.Url (mapAssetsAndLinks tokens config.url),
          trace := w.trace ++ [Event.fetch r.Url] ++ [Event.store r.Url] ++
            (mapAssetsAndLinks tokens config.url).Links.map
              (fun url => Event.spawn { Url := url, Depth := r.Depth - 1 }),
          stdout := w.stdout, exit := w.exit }) = w.fetched ++ [r.Url] := by
      simp [World.fetched, List.filterMap_append, Event.fetchUrl, fetchUrl_spawns]
    refine ⟨?_, ?_, ?_⟩
    · rw [e1]
      exact List.Nodup.append h1 (List.nodup_singleton _)
        (by
          intro a ha ha'
          rw [List.mem_singleton] at ha'
          exact hns (ha' ▸ ha))
    · intro u
      rw [e1, List.mem_append, List.mem_singleton, h2 u]
      simp only [GoMap.mem_keys_set]
      tauto
    · rw [e1, e2, List.filter_append, h3]
      simp [hf, FetchResult.isOk]

theorem Reach.mono {m m' : GoMap PageMap} {seed : Str} {k : Nat} {u : Str}
    (h : Reach m seed k u) (hE : MapExt m m') : Reach m' seed k u := by
  induction h with
  | start => exact Reach.start
  | hop _ hg hv ih => exact Reach.hop ih (hE _ _ hg) hv

theorem crawlFuel_reach (fetch : Str → FetchResult) (config : Config) (seed : Str) (d : Int)
    (n : Nat) (r : CrawlRequest) (w : World)
    (hpre : ∃ k : Nat, (k : Int) + r.Depth ≤ d ∧ Reach w.Map seed k r.Url)
    (hP : ∀ u ∈ w.Map.keys, ∃ k : Nat, (k : Int) < d ∧ Reach w.Map seed k u) :
    ∀ u ∈ (crawlFuel fetch config n r w).Map.keys,
      ∃ k : Nat, (k : Int) < d ∧ Reach (crawlFuel fetch config n r w).Map seed k u := by
  refine (crawlFuel_rule fetch config
    (fun r w => ∃ k : Nat, (k : Int) + r.Depth ≤ d ∧ Reach w.Map seed k r.Url)
    (fun w => ∀ u ∈ w.Map.keys, ∃ k : Nat, (k : Int) < d ∧ Reach w.Map seed k u)
    ?_ ?_ ?_ ?_ n r w hpre hP).1
  · rintro r w w' ⟨k, hk, hr⟩ hE
    exact ⟨k, hk, hr.mono hE⟩
  · intro r w _ _ _ _ _ hP
    by_cases hq : r.Depth - 1 + 1 = config.depth
    · rw [if_pos hq]; exact hP
    · rw [if_neg hq]; exact hP
  · intro r w _ _ _ _ _ hP
    exact hP
  · rintro r w tokens hd _ hc _ ⟨k, hk, hr⟩ hP
    have hE : MapExt w.Map (w.Map.set r.Url (mapAssetsAndLinks tokens config.url)) :=
      MapExt.set _ _ _ hc
    refine ⟨?_, ?_⟩
    · intro u hu
      rcases (GoMap.mem_keys_set _ _ _ _).1 hu with h1 | h1
      · subst h1
        exact ⟨k, by omega, hr.mono hE⟩
      · obtain ⟨k', hk', hr'⟩ := hP u h1
        exact ⟨k', hk', hr'.mono hE⟩
    · intro l hl
      refine ⟨k + 1, by push_cast; omega, ?_⟩
      refine Reach.hop (hr.mono hE) ?_ hl
      show (w.Map.set r.Url (mapAssetsAndLinks tokens config.url)).get? r.Url = _
      rw [GoMap.get?_set, if_pos rfl]

theorem crawlFuel_exit_none (fetch : Str → FetchResult) (config : Config) (n : Nat)
    (r : CrawlRequest) (w : World) (hr : r.Depth < config.depth) (hw : w.exit = none) :
    (crawlFuel fetch config n r w).exit = none := by
  refine (crawlFuel_rule fetch config (fun r _ => r.Depth < config.depth)
    (fun w => w.exit = none) (fun _ _ _ h _ => h) ?_ ?_ ?_ n r w hr hw).1
  · intro r w _ _ _ _ hr hw
    have hq : ¬ r.Depth - 1 + 1 = config.depth := by omega
    rw [if_neg hq]; exact hw
  · intro r w _ _ _ _ _ hw
    exact hw
  · intro r w tokens _ _ _ _ hr hw
    exact ⟨hw, fun l _ => by show r.Depth - 1 < config.depth; omega⟩

theorem crawlFuel_spawned_depth (fetch : Str → FetchResult) (config : Config) (D : Int)
    (n : Nat) (r : CrawlRequest) (w : World) (hr : r.Depth ≤ D)
    (hw : ∀ q ∈ w.spawned, q.Depth < D) :
    ∀ q ∈ (crawlFuel fetch config n r w).spawned, q.Depth < D := by
  refine (crawlFuel_rule fetch config (fun r _ => r.Depth ≤ D)
    (fun w => ∀ q ∈ w.spawned, q.Depth < D) (fun _ _ _ h _ => h) ?_ ?_ ?_ n r w hr hw).1
  · intro r w _ _ _ _ _ hw
    by_cases hq : r.Depth - 1 + 1 = config.depth
    · rw [if_pos hq]
      simpa [World.spawned, List.filterMap_append, Event.spawnRequest] using hw
    · rw [if_neg hq]
      simpa [World.spawned, List.filterMap_append, Event.spawnRequest] using hw
  · intro r w _ _ _ _ _ hw
    simpa [World.spawned, List.filterMap_append, Event.spawnRequest] using hw
  · intro r w tokens _ _ _ _ hr hw
    refine ⟨?_, fun l _ => by show r.Depth - 1 ≤ D; omega⟩
    intro q hq
    simp only [World.spawned, List.filterMap_append, spawnRequest_spawns, List.mem_append,
      List.mem_map] at hq
    rcases hq with ((hq | hq) | hq) | hq
    · exact hw q hq
    · simp [Event.spawnRequest] at hq
    · simp [Event.spawnRequest] at hq
    · obtain ⟨l, _, rfl⟩ := hq
      show r.Depth - 1 < D
      omega

theorem crawlFuel_spawned_links (fetch : Str → FetchResult) (config : Config)
    (n : Nat) (r : CrawlRequest) (w : World)
    (hw : ∀ q ∈ w.spawned, ∃ tokens, q.Url ∈ (mapAssetsAndLinks tokens config.url).Links) :
    ∀ q ∈ (crawlFuel fetch config n r w).spawned,
      ∃ tokens, q.Url ∈ (mapAssetsAndLinks tokens config.url).Links := by
  refine (crawlFuel_rule fetch config (fun _ _ => True)
    (fun w => ∀ q ∈ w.spawned, ∃ tokens, q.Url ∈ (mapAssetsAndLinks tokens config.url).Links)
    (fun _ _ _ h _ => h) ?_ ?_ ?_ n r w trivial hw).1
  · intro r w _ _ _ _ _ hw
    by_cases hq : r.Depth - 1 + 1 = config.depth
    · rw [if_pos hq]
      simpa [World.spawned, List.filterMap_append, Event.spawnRequest] using hw
    · rw [if_neg hq]
      simpa [World.spawned, List.filterMap_append, Event.spawnRequest] using hw
  · intro r w _ _ _ _ _ hw
    simpa [World.spawned, List.filterMap_append, Event.spawnRequest] using hw
  · intro r w tokens _ _ _ _ _ hw
    refine ⟨?_, fun l _ => trivial⟩
    intro q hq
    simp only [World.spawned, List.filterMap_append, spawnRequest_spawns, List.mem_append,
      List.mem_map] at hq
    rcases hq with ((hq | hq) | hq) | hq
    · exact hw q hq
    · simp [Event.spawnRequest] at hq
    · simp [Event.spawnRequest] at hq
    · obtain ⟨l, hl, rfl⟩ := hq
      exact ⟨tokens, hl⟩

theorem crawlFuel_mapExt (fetch : Str → FetchResult) (config : Config) (n : Nat)
    (r : CrawlRequest) (w : World) : MapExt w.Map (crawlFuel fetch config n r w).Map := by
  refine (crawlFuel_rule fetch config (fun _ _ => True) (fun _ => True)
    (fun _ _ _ _ _ => trivial) ?_ ?_ ?_ n r w trivial trivial).2
  · intros; trivial
  · intros; trivial
  · intros; exact ⟨trivial, fun _ _ => trivial⟩

theorem count_le_one_of_nodup (l : List Str) (h : l.Nodup) (u : Str) : l.count u ≤ 1 := by
  induction l with
  | nil => simp
  | cons x l ih =>
    rw [List.nodup_cons] at h
    rw [List.count_cons]
    by_cases hx : x = u
    · subst hx
      have : l.count x = 0 := List.count_eq_zero.2 h.1
      simp [this]
    · have : (x == u) = false := by simpa using hx
      simp only [this, Bool.false_eq_true, if_false, add_zero]
      exact ih h.2

theorem count_eq_one_of_nodup (l : List Str) (h : l.Nodup) (u : Str) (hu : u ∈ l) :
    l.count u = 1 := by
  have h1 := count_le_one_of_nodup l h u
  have h2 : 0 < l.count u := List.count_pos_iff.2 hu
  omega

theorem count_fetched_ok (fetch : Str → FetchResult) (w : World) (hB : Books fetch w)
    (u : Str) (tokens : List Attribute) (h : fetch u = .ok tokens) :
    w.fetched.count u = w.stored.count u := by
  have e : List.count u (List.filter (fun u => (fetch u).isOk) w.fetched)
      = List.count u w.fetched :=
    List.count_filter (by simp [h, FetchResult.isOk])
  rw [← e, hB.2.2]

theorem crawl_books (fetch : Str → FetchResult) (config : Config) (r : CrawlRequest) :
    Books fetch (crawl fetch config r World.init) :=
  crawlFuel_books fetch config _ r World.init (Books.init fetch)

theorem crawl_mapExt (fetch : Str → FetchResult) (config : Config) (r : CrawlRequest)
    (w : World) : MapExt w.Map (crawl fetch config r w).Map :=
  crawlFuel_mapExt fetch config _ r w

theorem crawl_exit_none (fetch : Str → FetchResult) (config : Config)
    (r : CrawlRequest) (w : World) (hr : r.Depth < config.depth) (hw : w.exit = none) :
    (crawl fetch config r w).exit = none :=
  crawlFuel_exit_none fetch config _ r w hr hw

theorem crawl_visited (fetch : Str → FetchResult) (config : Config) (r : CrawlRequest)
    (w : World) (h : r.Url ∈ w.Map.keys) : crawl fetch config r w = w := by
  rw [crawl_eq]
  have hc : w.Map.contains r.Url = true := (GoMap.contains_iff _ _).2 h
  by_cases hx : w.exit.isSome = true
  · rw [if_pos hx]
  · rw [if_neg hx]
    by_cases hd : r.Depth ≤ 0
    · rw [if_pos hd]
    · rw [if_neg hd]
      simp only [hc, if_true]

theorem crawl_fail_frame (fetch : Str → FetchResult) (config : Config) (r : CrawlRequest)
    (w : World) (hr : r.Depth < config.depth) (hw : w.exit = none)
    (hf : (fetch r.Url).isOk = false) :
    (crawl fetch config r w).Map = w.Map ∧ (crawl fetch config r w).spawned = w.spawned ∧
      (crawl fetch config r w).stored = w.stored ∧ (crawl fetch config r w).exit = none := by
  rw [crawl_eq]
  have hx : ¬ w.exit.isSome = true := by rw [hw]; simp
  rw [if_neg hx]
  by_cases hd : r.Depth ≤ 0
  · rw [if_pos hd]; exact ⟨rfl, rfl, rfl, hw⟩
  rw [if_neg hd]
  by_cases hc : w.Map.contains r.Url = true
  · dsimp only
    rw [if_pos hc]; exact ⟨rfl, rfl, rfl, hw⟩
  dsimp only
  rw [if_neg hc]
  cases hfr : fetch r.Url with
  | ok tokens => rw [hfr] at hf; cases hf
  | non200 =>
    simp [World.spawned, World.stored, List.filterMap_append, Event.spawnRequest,
      Event.storeUrl, hw]
  | transportError =>
    have hq : ¬ r.Depth = config.depth := by omega
    simp [hq, World.spawned, World.stored, List.filterMap_append, Event.spawnRequest,
      Event.storeUrl, hw]

theorem crawl_records (fetch : Str → FetchResult) (config : Config) (r : CrawlRequest)
    (w : World) (tokens : List Attribute) (hd : 1 ≤ r.Depth) (hw : w.exit = none)
    (hf : fetch r.Url = .ok tokens) : r.Url ∈ (crawl fetch config r w).Map.keys := by
  by_cases hk : r.Url ∈ w.Map.keys
  · rw [crawl_visited fetch config r w hk]; exact hk
  rw [crawl_eq]
  have hx : ¬ w.exit.isSome = true := by rw [hw]; simp
  have hd' : ¬ r.Depth ≤ 0 := by omega
  have hc : ¬ w.Map.contains r.Url = true := fun h => hk ((GoMap.contains_iff _ _).1 h)
  rw [if_neg hx, if_neg hd']
  simp only [hc, if_false, hf]
  have key := foldl_preserves
    (fun w' => MapExt (w.Map.set r.Url (mapAssetsAndLinks tokens config.url)) w'.Map)
    (fun w' url => crawl fetch config { Url := url, Depth := r.Depth - 1 } w')
    (mapAssetsAndLinks tokens config.url).Links
    { Map := w.Map.set r.Url (mapAssetsAndLinks tokens config.url),
      trace := w.trace ++ [Event.fetch r.Url] ++ [Event.store r.Url] ++
        (mapAssetsAndLinks tokens config.url).Links.map
          (fun url => Event.spawn { Url := url, Depth := r.Depth - 1 }),
      stdout := w.stdout, exit := w.exit }
    (MapExt.refl _)
    (fun w' l _ hw' => MapExt.trans hw' (crawl_mapExt fetch config _ w'))
  refine MapExt.keys key r.Url ?_
  rw [GoMap.mem_keys_set]
  exact Or.inl rfl

theorem crawl_seed_exit (fetch : Str → FetchResult) (config : Config)
    (h : 1 ≤ config.depth) :
    (crawl fetch config { Url := config.url, Depth := config.depth } World.init).exit =
      if fetch config.url = .transportError then some 1 else none := by
  rw [crawl_eq]
  have hd' : ¬ config.depth ≤ 0 := by omega
  simp only [World.init, Option.isSome_none, Bool.false_eq_true, if_false, hd',
    GoMap.contains, GoMap.get?]
  cases hf : fetch config.url with
  | transportError => simp
  | non200 => simp
  | ok tokens =>
    simp only [reduceCtorEq, if_false]
    refine foldl_preserves (fun w' => w'.exit = none)
      (fun w' url => crawl fetch config { Url := url, Depth := config.depth - 1 } w')
      _ _ ?_ ?_
    · rfl
    · intro w' l _ hw'
      exact crawl_exit_none fetch config _ w' (by show config.depth - 1 < _; omega) hw'

/-! ## Lemmas on the interleaved run -/

theorem TaskOk.mono_map {fetch : Str → FetchResult} {config : Config} {seed : Str} {d : Int}
    {m m' : GoMap PageMap} (hE : MapExt m m') (t : Task)
    (h : TaskOk fetch config seed d m t) : TaskOk fetch config seed d m' t := by
  cases t with
  | called r =>
    obtain ⟨k, hk, hr⟩ := h
    exact ⟨k, hk, hr.mono hE⟩
  | fetching r =>
    obtain ⟨k, hk, h0, hr⟩ := h
    exact ⟨k, hk, h0, hr.mono hE⟩
  | storing r pm =>
    obtain ⟨⟨k, hk, h0, hr⟩, ht⟩ := h
    exact ⟨⟨k, hk, h0, hr.mono hE⟩, ht⟩

theorem mem_of_mem_removed {pre post : List Task} {x t : Task} (h : t ∈ pre ++ post) :
    t ∈ pre ++ x :: post := by
  rcases List.mem_append.1 h with h | h
  · exact List.mem_append_left _ h
  · exact List.mem_append_right _ (List.mem_cons_of_mem _ h)

theorem PoolInv.start (fetch : Str → FetchResult) (config : Config) (seed : Str) (d : Int) :
    PoolInv fetch config seed d (Pool.start seed d) := by
  refine ⟨?_, ?_, ?_⟩
  · intro u pm h
    cases h
  · intro u hu
    exact absurd hu (List.not_mem_nil u)
  · intro t ht
    have : t = Task.called { Url := seed, Depth := d } := List.mem_singleton.1 ht
    subst this
    exact ⟨0, by simp, Reach.start⟩

theorem PoolInv.step {fetch : Str → FetchResult} {config : Config} {seed : Str} {d : Int}
    {s s' : Pool} (hI : PoolInv fetch config seed d s) (hS : Step fetch config s s') :
    PoolInv fetch config seed d s' := by
  cases hS with
  | depthExhausted pre post r _ ht _ =>
    exact ⟨hI.records, hI.keys, fun t h => hI.tasks t (ht ▸ mem_of_mem_removed h)⟩
  | alreadyVisited pre post r _ ht _ _ =>
    exact ⟨hI.records, hI.keys, fun t h => hI.tasks t (ht ▸ mem_of_mem_removed h)⟩
  | fetchError pre post r _ ht _ =>
    exact ⟨hI.records, hI.keys, fun t h => hI.tasks t (ht ▸ mem_of_mem_removed h)⟩
  | fetchSkip pre post r _ ht _ =>
    exact ⟨hI.records, hI.keys, fun t h => hI.tasks t (ht ▸ mem_of_mem_removed h)⟩
  | enter pre post r _ ht hd _ =>
    refine ⟨hI.records, hI.keys, fun t h => ?_⟩
    have hx : Task.called r ∈ s.tasks := by rw [ht]; simp
    rcases List.mem_append.1 h with h | h
    · exact hI.tasks t (ht ▸ List.mem_append_left _ h)
    · rcases List.mem_cons.1 h with h | h
      · subst h
        obtain ⟨k, hk, hr⟩ := hI.tasks _ hx
        exact ⟨k, by show (k : Int) + (r.Depth - 1) + 1 ≤ d; omega,
          by show 0 ≤ r.Depth - 1; omega, hr⟩
      · exact hI.tasks t (ht ▸ List.mem_append_right _ (List.mem_cons_of_mem _ h))
  | fetchOk pre post r tokens _ ht hf =>
    refine ⟨hI.records, hI.keys, fun t h => ?_⟩
    have hx : Task.fetching r ∈ s.tasks := by rw [ht]; simp
    rcases List.mem_append.1 h with h | h
    · exact hI.tasks t (ht ▸ List.mem_append_left _ h)
    · rcases List.mem_cons.1 h with h | h
      · subst h
        exact ⟨hI.tasks _ hx, tokens, hf, rfl⟩
      · exact hI.tasks t (ht ▸ List.mem_append_right _ (List.mem_cons_of_mem _ h))
  | store pre post r pageMap _ ht =>
    have hx : Task.storing r pageMap ∈ s.tasks := by rw [ht]; simp
    obtain ⟨⟨k, hk, h0, hr⟩, tokens, hf, hpm⟩ := hI.tasks _ hx
    have hE : MapExt s.Map (s.Map.set r.Url pageMap) := by
      intro u pm hu
      rw [GoMap.get?_set]
      by_cases hu' : r.Url = u
      · subst hu'
        obtain ⟨tokens', hf', hpm'⟩ := hI.records _ _ hu
        rw [hf] at hf'
        cases hf'
        rw [if_pos rfl, hpm, hpm']
      · rw [if_neg hu']; exact hu
    have hget : (s.Map.set r.Url pageMap).get? r.Url = some pageMap := by
      rw [GoMap.get?_set, if_pos rfl]
    refine ⟨?_, ?_, ?_⟩
    · intro u pm hu
      show ∃ tokens, fetch u = .ok tokens ∧ pm = mapAssetsAndLinks tokens config.url
      have hu2 : (s.Map.set r.Url pageMap).get? u = some pm := hu
      rw [GoMap.get?_set] at hu2
      by_cases hu' : r.Url = u
      · subst hu'
        rw [if_pos rfl] at hu2
        cases hu2
        exact ⟨tokens, hf, hpm⟩
      · rw [if_neg hu'] at hu2
        exact hI.records u pm hu2
    · intro u hu
      rcases (GoMap.mem_keys_set _ _ _ _).1 hu with h1 | h1
      · subst h1
        exact ⟨k, by omega, hr.mono hE⟩
      · obtain ⟨k', hk', hr'⟩ := hI.keys u h1
        exact ⟨k', hk', hr'.mono hE⟩
    · intro t h
      rcases List.mem_append.1 h with h | h
      · exact TaskOk.mono_map hE t (hI.tasks t (ht ▸ mem_of_mem_removed h))
      · obtain ⟨l, hl, rfl⟩ := List.mem_map.1 h
        exact ⟨k + 1, by push_cast; show (k : Int) + 1 + r.Depth ≤ d; omega,
          Reach.hop (hr.mono hE) hget hl⟩

theorem PoolInv.reachable {fetch : Str → FetchResult} {config : Config} {seed : Str}
    {d : Int} {s : Pool} (h : Reachable fetch config seed d s) :
    PoolInv fetch config seed d s := by
  induction h with
  | refl => exact PoolInv.start fetch config seed d
  | tail _ hS ih => exact ih.step hS

theorem crawl_exited (fetch : Str → FetchResult) (config : Config) (r : CrawlRequest)
    (w : World) (h : w.exit.isSome = true) : crawl fetch config r w = w := by
  rw [crawl_eq, if_pos h]

theorem foldl_crawl_exited (fetch : Str → FetchResult) (config : Config) (dd : Int)
    (links : List Str) (w : World) (h : w.exit.isSome = true) :
    links.foldl (fun w url => crawl fetch config { Url := url, Depth := dd } w) w = w := by
  induction links with
  | nil => rfl
  | cons l ls ih => rw [List.foldl_cons, crawl_exited fetch config _ w h, ih]

/-! ## Lemmas on the race-free run -/

theorem mem_flight_middle (pre post : List Task) (x : Task) (u : Str) :
    u ∈ (pre ++ x :: post).filterMap Task.flightUrl ↔
      x.flightUrl = some u ∨ u ∈ (pre ++ post).filterMap Task.flightUrl := by
  simp only [List.filterMap_append, List.mem_append, List.mem_filterMap, List.mem_cons]
  constructor
  · rintro (h | ⟨a, ha | ha, hu⟩)
    · exact Or.inr (Or.inl h)
    · subst ha; exact Or.inl hu
    · exact Or.inr (Or.inr ⟨a, ha, hu⟩)
  · rintro (h | h | h)
    · exact Or.inr ⟨x, Or.inl rfl, h⟩
    · exact Or.inl h
    · obtain ⟨a, ha, hu⟩ := h
      exact Or.inr ⟨a, Or.inr ha, hu⟩

theorem flight_unique (pre post : List Task) (x : Task) (v : Str)
    (hn : ((pre ++ x :: post).filterMap Task.flightUrl).Nodup) (hx : x.flightUrl = some v) :
    v ∉ (pre ++ post).filterMap Task.flightUrl := by
  rw [List.filterMap_append, List.filterMap_cons, hx] at hn
  have h := (List.nodup_middle.1 hn)
  rw [List.nodup_cons] at h
  rw [List.filterMap_append]
  exact h.1

theorem mem_without {pre post : List Task} {x t : Task} (h : t ∈ pre ++ x :: post)
    (hne : t ≠ x) : t ∈ pre ++ post := by
  rcases List.mem_append.1 h with h | h
  · exact List.mem_append_left _ h
  · rcases List.mem_cons.1 h with h | h
    · exact absurd h hne
    · exact List.mem_append_right _ h

theorem storing_in_flight (ts : List Task) (r : CrawlRequest) (pm : PageMap)
    (h : Task.storing r pm ∈ ts) : r.Url ∈ ts.filterMap Task.flightUrl :=
  List.mem_filterMap.2 ⟨_, h, rfl⟩

theorem flight_children (links : List Str) (dd : Int) :
    (links.map fun url => Task.called { Url := url, Depth := dd }).filterMap Task.flightUrl
      = [] := by
  induction links with
  | nil => rfl
  | cons l ls ih => simp [Task.flightUrl]

theorem FetchInv.at_start (fetch : Str → FetchResult) (seed : Str) (d : Int) :
    FetchInv fetch (Pool.start seed d) := by
  refine ⟨List.nodup_nil, List.nodup_nil, ?_, ?_⟩
  · intro u hu
    exact absurd hu (List.not_mem_nil u)
  · intro u hu
    exact absurd hu (List.not_mem_nil u)

theorem filter_ok_append_bad (fetch : Str → FetchResult) (l : List Str) (v : Str)
    (h : (fetch v).isOk = false) :
    (l ++ [v]).filter (fun u => (fetch u).isOk) = l.filter (fun u => (fetch u).isOk) := by
  rw [List.filter_append, List.filter_cons, if_neg (by rw [h]; simp)]
  simp

theorem FetchInv.after_step {fetch : Str → FetchResult} {config : Config} {s s' : Pool}
    (hI : FetchInv fetch s) (hS : Step fetch config s s') (hR : s'.RaceFree) :
    FetchInv fetch s' := by
  have hfl : (s.tasks.filterMap Task.flightUrl).Nodup := hI.raceFree
  have hfresh : ∀ u ∈ s.tasks.filterMap Task.flightUrl, u ∉ s.Map.keys := hI.fresh
  cases hS with
  | depthExhausted pre post r _ ht _ =>
    rw [ht] at hfresh
    refine ⟨hR, hI.okOnce, ?_, ?_⟩
    · intro u hu hok
      rcases hI.accounted u hu hok with h | ⟨r2, pm2, hm, he⟩
      · exact Or.inl h
      · exact Or.inr ⟨r2, pm2, mem_without (ht ▸ hm) (by intro h; cases h), he⟩
    · intro u hu
      exact hfresh u ((mem_flight_middle pre post _ u).2 (Or.inr hu))
  | alreadyVisited pre post r _ ht _ _ =>
    rw [ht] at hfresh
    refine ⟨hR, hI.okOnce, ?_, ?_⟩
    · intro u hu hok
      rcases hI.accounted u hu hok with h | ⟨r2, pm2, hm, he⟩
      · exact Or.inl h
      · exact Or.inr ⟨r2, pm2, mem_without (ht ▸ hm) (by intro h; cases h), he⟩
    · intro u hu
      exact hfresh u ((mem_flight_middle pre post _ u).2 (Or.inr hu))
  | enter pre post r _ ht _ hc =>
    rw [ht] at hfresh
    refine ⟨hR, hI.okOnce, ?_, ?_⟩
    · intro u hu hok
      rcases hI.accounted u hu hok with h | ⟨r2, pm2, hm, he⟩
      · exact Or.inl h
      · exact Or.inr ⟨r2, pm2,
          mem_of_mem_removed (mem_without (ht ▸ hm) (by intro h; cases h)), he⟩
    · intro u hu
      rcases (mem_flight_middle pre post _ u).1 hu with h | h
      · have hu' : r.Url = u := by simpa [Task.flightUrl] using h
        subst hu'
        intro hk
        rw [(GoMap.contains_iff _ _).2 hk] at hc
        cases hc
      · exact hfresh u ((mem_flight_middle pre post _ u).2 (Or.inr h))
  | fetchError pre post r _ ht hf =>
    rw [ht] at hfresh
    have hbad : (fetch r.Url).isOk = false := by rw [hf]; rfl
    refine ⟨hR, ?_, ?_, ?_⟩
    · show ((s.fetched ++ [r.Url]).filter fun u => (fetch u).isOk).Nodup
      rw [filter_ok_append_bad fetch _ _ hbad]
      exact hI.okOnce
    · intro u hu hok
      have hu' : u ∈ s.fetched := by
        rcases List.mem_append.1 hu with h | h
        · exact h
        · rw [List.mem_singleton.1 h, hbad] at hok; cases hok
      rcases hI.accounted u hu' hok with h | ⟨r2, pm2, hm, he⟩
      · exact Or.inl h
      · exact Or.inr ⟨r2, pm2, mem_without (ht ▸ hm) (by intro h; cases h), he⟩
    · intro u hu
      exact hfresh u ((mem_flight_middle pre post _ u).2 (Or.inr hu))
  | fetchSkip pre post r _ ht hf =>
    rw [ht] at hfresh
    have hbad : (fetch r.Url).isOk = false := by rw [hf]; rfl
    refine ⟨hR, ?_, ?_, ?_⟩
    · show ((s.fetched ++ [r.Url]).filter fun u => (fetch u).isOk).Nodup
      rw [filter_ok_append_bad fetch _ _ hbad]
      exact hI.okOnce
    · intro u hu hok
      have hu' : u ∈ s.fetched := by
        rcases List.mem_append.1 hu with h | h
        · exact h
        · rw [List.mem_singleton.1 h, hbad] at hok; cases hok
      rcases hI.accounted u hu' hok with h | ⟨r2, pm2, hm, he⟩
      · exact Or.inl h
      · exact Or.inr ⟨r2, pm2, mem_without (ht ▸ hm) (by intro h; cases h), he⟩
    · intro u hu
      exact hfresh u ((mem_flight_middle pre post _ u).2 (Or.inr hu))
  | fetchOk pre post r tokens _ ht hf =>
    rw [ht] at hfresh hfl
    have hgood : (fetch r.Url).isOk = true := by rw [hf]; rfl
    have hself : r.Url ∈ (pre ++ Task.fetching r :: post).filterMap Task.flightUrl :=
      (mem_flight_middle pre post _ _).2 (Or.inl rfl)
    have hnew : r.Url ∉ s.fetched.filter fun u => (fetch u).isOk := by
      intro hm
      rw [List.mem_filter] at hm
      rcases hI.accounted _ hm.1 hm.2 with h | ⟨r2, pm2, hm2, he⟩
      · exact hfresh _ hself h
      · have h2 : Task.storing r2 pm2 ∈ pre ++ post :=
          mem_without (ht ▸ hm2) (by intro h; cases h)
        have h3 := storing_in_flight _ r2 pm2 h2
        rw [he] at h3
        exact flight_unique pre post _ r.Url hfl rfl h3
    refine ⟨hR, ?_, ?_, ?_⟩
    · show ((s.fetched ++ [r.Url]).filter fun u => (fetch u).isOk).Nodup
      rw [List.filter_append, List.filter_cons, if_pos hgood, List.filter_nil]
      refine List.Nodup.append hI.okOnce (List.nodup_singleton _) ?_
      intro a ha ha'
      rw [List.mem_singleton] at ha'
      exact hnew (ha' ▸ ha)
    · intro u hu hok
      rcases List.mem_append.1 hu with h | h
      · rcases hI.accounted u h hok with h' | ⟨r2, pm2, hm, he⟩
        · exact Or.inl h'
        · exact Or.inr ⟨r2, pm2,
            mem_of_mem_removed (mem_without (ht ▸ hm) (by intro h; cases h)), he⟩
      · refine Or.inr ⟨r, mapAssetsAndLinks tokens config.url, ?_, (List.mem_singleton.1 h).symm⟩
        exact List.mem_append_right _ (List.mem_cons_self _ _)
    · intro u hu
      rcases (mem_flight_middle pre post _ u).1 hu with h | h
      · have hu' : r.Url = u := by simpa [Task.flightUrl] using h
        subst hu'
        exact hfresh _ hself
      · exact hfresh u ((mem_flight_middle pre post _ u).2 (Or.inr h))
  | store pre post r pageMap _ ht =>
    rw [ht] at hfresh hfl
    have huniq := flight_unique pre post _ r.Url hfl rfl
    refine ⟨hR, hI.okOnce, ?_, ?_⟩
    · intro u hu hok
      rcases hI.accounted u hu hok with h | ⟨r2, pm2, hm, he⟩
      · exact Or.inl ((GoMap.mem_keys_set _ _ _ _).2 (Or.inr h))
      · rw [ht] at hm
        by_cases hsame : Task.storing r2 pm2 = Task.storing r pageMap
        · cases hsame
          exact Or.inl ((GoMap.mem_keys_set _ _ _ _).2 (Or.inl he.symm))
        · exact Or.inr ⟨r2, pm2, List.mem_append_left _ (mem_without hm hsame), he⟩
    · intro u hu
      have hu' : u ∈ (pre ++ post).filterMap Task.flightUrl := by
        have : u ∈ ((pre ++ post) ++ pageMap.Links.map
            (fun url => Task.called { Url := url, Depth := r.Depth })).filterMap
            Task.flightUrl := hu
        rw [List.filterMap_append, flight_children, List.append_nil] at this
        exact this
      intro hk
      rcases (GoMap.mem_keys_set _ _ _ _).1 hk with h | h
      · exact huniq (h ▸ hu')
      · exact hfresh u ((mem_flight_middle pre post _ u).2 (Or.inr hu')) h

theorem FetchInv.of_raceFree {fetch : Str → FetchResult} {config : Config} {seed : Str}
    {d : Int} {s : Pool} (h : RaceFreeReachable fetch config seed d s) :
    FetchInv fetch s := by
  induction h with
  | refl => exact FetchInv.at_start fetch seed d
  | tail _ hS ih => exact ih.after_step hS.1 hS.2

theorem RaceFreeReachable.to_reachable {fetch : Str → FetchResult} {config : Config}
    {seed : Str} {d : Int} {s : Pool} (h : RaceFreeReachable fetch config seed d s) :
    Reachable fetch config seed d s :=
  Relation.ReflTransGen.mono (fun _ _ h => h.1) h

theorem crawl_error_result (fetch : Str → FetchResult) (config : Config) (r : CrawlRequest)
    (w : World) (hd : 0 < r.Depth) (hw : w.exit = none)
    (hc : w.Map.contains r.Url = false) (hf : fetch r.Url = .transportError) :
    (crawl fetch config r w).Map = w.Map ∧
      (crawl fetch config r w).fetched = w.fetched ++ [r.Url] ∧
      (crawl fetch config r w).exit.isSome = decide (r.Depth - 1 + 1 = config.depth) := by
  have hx : ¬ w.exit.isSome = true := by rw [hw]; simp
  have hd' : ¬ r.Depth ≤ 0 := by omega
  have hc' : ¬ w.Map.contains r.Url = true := by rw [hc]; simp
  rw [crawl_eq, if_neg hx, if_neg hd']
  dsimp only
  rw [if_neg hc', hf]
  by_cases hq : r.Depth - 1 + 1 = config.depth
  · rw [if_pos hq, decide_eq_true hq]
    simp [World.fetched, List.filterMap_append, Event.fetchUrl]
  · rw [if_neg hq, decide_eq_false hq]
    simp [hw, World.fetched, List.filterMap_append, Event.fetchUrl]

theorem crawl_skip_result (fetch : Str → FetchResult) (config : Config) (r : CrawlRequest)
    (w : World) (hd : 0 < r.Depth) (hw : w.exit = none)
    (hc : w.Map.contains r.Url = false) (hf : fetch r.Url = .non200) :
    (crawl fetch config r w).Map = w.Map ∧
      (crawl fetch config r w).fetched = w.fetched ++ [r.Url] ∧
      (crawl fetch config r w).exit = none := by
  have hx : ¬ w.exit.isSome = true := by rw [hw]; simp
  have hd' : ¬ r.Depth ≤ 0 := by omega
  have hc' : ¬ w.Map.contains r.Url = true := by rw [hc]; simp
  rw [crawl_eq, if_neg hx, if_neg hd']
  dsimp only
  rw [if_neg hc', hf]
  simp [hw, World.fetched, List.filterMap_append, Event.fetchUrl]

theorem crawl_ok_result (fetch : Str → FetchResult) (config : Config) (r : CrawlRequest)
    (w : World) (tokens : List Attribute) (hd : 0 < r.Depth) (hw : w.exit = none)
    (hc : w.Map.contains r.Url = false) (hf : fetch r.Url = .ok tokens) :
    crawl fetch config r w =
      (mapAssetsAndLinks tokens config.url).Links.foldl
        (fun w url => crawl fetch config { Url := url, Depth := r.Depth - 1 } w)
        { Map := w.Map.set r.Url (mapAssetsAndLinks tokens config.url),
          trace := w.trace ++ [Event.fetch r.Url] ++ [Event.store r.Url] ++
            (mapAssetsAndLinks tokens config.url).Links.map
              (fun url => Event.spawn { Url := url, Depth := r.Depth - 1 }),
          stdout := w.stdout, exit := w.exit } := by
  have hx : ¬ w.exit.isSome = true := by rw [hw]; simp
  have hd' : ¬ r.Depth ≤ 0 := by omega
  have hc' : ¬ w.Map.contains r.Url = true := by rw [hc]; simp
  rw [crawl_eq, if_neg hx, if_neg hd']
  dsimp only
  rw [if_neg hc', hf]

theorem raceFree_of_quiet (s : Pool) (h : Quiet s.tasks) : s.RaceFree := by
  unfold Pool.RaceFree Pool.inFlight
  rw [show s.tasks.filterMap Task.flightUrl = [] from h]
  exact List.nodup_nil

theorem quiet_append {pre post : List Task} (h1 : Quiet pre) (h2 : Quiet post) :
    Quiet (pre ++ post) := by
  unfold Quiet at *
  rw [List.filterMap_append, h1, h2]; rfl

theorem quiet_called {pre post : List Task} (r : CrawlRequest) (h1 : Quiet pre)
    (h2 : Quiet post) : Quiet (pre ++ Task.called r :: post) := by
  unfold Quiet at *
  rw [List.filterMap_append, List.filterMap_cons, h1, h2]; rfl

theorem quiet_children (links : List Str) (dd : Int) :
    Quiet (links.map fun url => Task.called { Url := url, Depth := dd }) :=
  flight_children links dd

theorem raceFree_one {pre post : List Task} (s : Pool) (x : Task) (h1 : Quiet pre)
    (h2 : Quiet post) (hs : s.tasks = pre ++ x :: post) : s.RaceFree := by
  unfold Pool.RaceFree Pool.inFlight
  unfold Quiet at h1 h2
  rw [hs, List.filterMap_append, List.filterMap_cons, h1, h2]
  cases x.flightUrl with
  | none => exact List.nodup_nil
  | some u => exact List.nodup_singleton u

/-- The children of a recorded page, run one after the other, are a race-free
interleaved run, given that each child is. -/
theorem children_simulated (fetch : Str → FetchResult) (config : Config) (dd : Int)
    (hchild : ∀ (l : Str) (w : World) (pre post : List Task) (s : Pool),
      w.exit = none → Quiet pre → Quiet post → s.Map = w.Map →
      s.tasks = pre ++ Task.called { Url := l, Depth := dd } :: post →
      s.fetched = w.fetched → s.exited = false →
      ∃ s', Relation.ReflTransGen (RaceFreeStep fetch config) s s' ∧
        s'.Map = (crawl fetch config { Url := l, Depth := dd } w).Map ∧
        s'.fetched = (crawl fetch config { Url := l, Depth := dd } w).fetched ∧
        s'.exited = (crawl fetch config { Url := l, Depth := dd } w).exit.isSome ∧
        ((crawl fetch config { Url := l, Depth := dd } w).exit = none →
          s'.tasks = pre ++ post))
    (links : List Str) (w : World) (ctx : List Task) (s : Pool) (hw : w.exit = none)
    (hq : Quiet ctx) (hM : s.Map = w.Map)
    (hT : s.tasks = ctx ++ links.map (fun url => Task.called { Url := url, Depth := dd }))
    (hF : s.fetched = w.fetched) (hE : s.exited = false) :
    ∃ s', Relation.ReflTransGen (RaceFreeStep fetch config) s s' ∧
      s'.Map = (links.foldl
        (fun w url => crawl fetch config { Url := url, Depth := dd } w) w).Map ∧
      s'.fetched = (links.foldl
        (fun w url => crawl fetch config { Url := url, Depth := dd } w) w).fetched ∧
      s'.exited = (links.foldl
        (fun w url => crawl fetch config { Url := url, Depth := dd } w) w).exit.isSome ∧
      ((links.foldl
          (fun w url => crawl fetch config { Url := url, Depth := dd } w) w).exit = none →
        s'.tasks = ctx) := by
  induction links generalizing w s with
  | nil =>
    refine ⟨s, Relation.ReflTransGen.refl, hM, hF, ?_, fun _ => ?_⟩
    · rw [hE, List.foldl_nil, hw]; rfl
    · rw [hT, List.map_nil, List.append_nil]
  | cons l ls ih =>
    rw [List.map_cons] at hT
    obtain ⟨s2, hsteps, hM2, hF2, hE2, hT2⟩ := hchild l w ctx
      (ls.map (fun url => Task.called { Url := url, Depth := dd })) s hw hq
      (quiet_children ls dd) hM hT hF hE
    rw [List.foldl_cons]
    cases hx : (crawl fetch config { Url := l, Depth := dd } w).exit with
    | none =>
      have hE2' : s2.exited = false := by rw [hE2, hx]; rfl
      obtain ⟨s3, hsteps3, h3⟩ := ih (crawl fetch config { Url := l, Depth := dd } w) s2
        hx hM2 (hT2 hx) hF2 hE2'
      exact ⟨s3, Relation.ReflTransGen.trans hsteps hsteps3, h3⟩
    | some c =>
      have hs : (crawl fetch config { Url := l, Depth := dd } w).exit.isSome = true := by
        rw [hx]; rfl
      rw [foldl_crawl_exited fetch config dd ls _ hs]
      exact ⟨s2, hsteps, hM2, hF2, hE2, fun h => by rw [hx] at h; cases h⟩

/-- The sequential run of one call of `crawl` is a race-free interleaved run of
its goroutine among pending calls: the steps lead from a pool with the call
pending to a pool with the call gone, and with the registry, the log of fetches
and the exit status as `crawl` returns them. -/
theorem crawl_simulated (fetch : Str → FetchResult) (config : Config) :
    ∀ (n : Nat) (r : CrawlRequest) (w : World) (pre post : List Task) (s : Pool),
      r.Depth.toNat = n → w.exit = none → Quiet pre → Quiet post → s.Map = w.Map →
      s.tasks = pre ++ Task.called r :: post → s.fetched = w.fetched → s.exited = false →
      ∃ s', Relation.ReflTransGen (RaceFreeStep fetch config) s s' ∧
        s'.Map = (crawl fetch config r w).Map ∧
        s'.fetched = (crawl fetch config r w).fetched ∧
        s'.exited = (crawl fetch config r w).exit.isSome ∧
        ((crawl fetch config r w).exit = none → s'.tasks = pre ++ post) := by
  intro n
  induction n with
  | zero =>
    intro r w pre post s hn hw hq1 hq2 hM hT hF hE
    have hd : r.Depth ≤ 0 := Int.toNat_eq_zero.1 hn
    have hc : crawl fetch config r w = w := by
      rw [crawl_eq]; simp [hw, hd]
    rw [hc]
    refine ⟨{ s with tasks := pre ++ post }, Relation.ReflTransGen.single
      ⟨Step.depthExhausted s pre post r hE hT hd, raceFree_of_quiet _ (quiet_append hq1 hq2)⟩,
      hM, hF, ?_, fun _ => rfl⟩
    show s.exited = _
    rw [hE, hw]; rfl
  | succ n ih =>
    intro r w pre post s hn hw hq1 hq2 hM hT hF hE
    have hd : 0 < r.Depth := by omega
    by_cases hc : w.Map.contains r.Url = true
    · have hcr : crawl fetch config r w = w :=
        crawl_visited fetch config r w ((GoMap.contains_iff _ _).1 hc)
      rw [hcr]
      refine ⟨{ s with tasks := pre ++ post }, Relation.ReflTransGen.single
        ⟨Step.alreadyVisited s pre post r hE hT hd (by rw [hM]; exact hc),
          raceFree_of_quiet _ (quiet_append hq1 hq2)⟩,
        hM, hF, ?_, fun _ => rfl⟩
      show s.exited = _
      rw [hE, hw]; rfl
    have hc' : w.Map.contains r.Url = false := by simpa using hc
    have henter : RaceFreeStep fetch config s
        { s with tasks := pre ++ Task.fetching { Url := r.Url, Depth := r.Depth - 1 } :: post } :=
      ⟨Step.enter s pre post r hE hT hd (by rw [hM]; exact hc'),
        raceFree_one _ _ hq1 hq2 rfl⟩
    cases hf : fetch r.Url with
    | transportError =>
      obtain ⟨e1, e2, e3⟩ := crawl_error_result fetch config r w hd hw hc' hf
      have hstep : RaceFreeStep fetch config
          { s with tasks := pre ++ Task.fetching { Url := r.Url, Depth := r.Depth - 1 } :: post }
          { s with tasks := pre ++ post, fetched := s.fetched ++ [r.Url],
                   exited := decide (r.Depth - 1 + 1 = config.depth) } :=
        ⟨Step.fetchError _ pre post { Url := r.Url, Depth := r.Depth - 1 } hE rfl hf,
          raceFree_of_quiet _ (quiet_append hq1 hq2)⟩
      refine ⟨_, Relation.ReflTransGen.tail (Relation.ReflTransGen.single henter) hstep,
        ?_, ?_, ?_, fun _ => rfl⟩
      · rw [e1]; exact hM
      · rw [e2, ← hF]
      · rw [e3]
    | non200 =>
      obtain ⟨e1, e2, e3⟩ := crawl_skip_result fetch config r w hd hw hc' hf
      have hstep : RaceFreeStep fetch config
          { s with tasks := pre ++ Task.fetching { Url := r.Url, Depth := r.Depth - 1 } :: post }
          { s with tasks := pre ++ post, fetched := s.fetched ++ [r.Url] } :=
        ⟨Step.fetchSkip _ pre post { Url := r.Url, Depth := r.Depth - 1 } hE rfl hf,
          raceFree_of_quiet _ (quiet_append hq1 hq2)⟩
      refine ⟨_, Relation.ReflTransGen.tail (Relation.ReflTransGen.single henter) hstep,
        ?_, ?_, ?_, fun _ => rfl⟩
      · rw [e1]; exact hM
      · rw [e2, ← hF]
      · rw [e3]; exact hE
    | ok tokens =>
      have hstep1 : RaceFreeStep fetch config
          { s with tasks := pre ++ Task.fetching { Url := r.Url, Depth := r.Depth - 1 } :: post }
          { s with
            tasks := pre ++ Task.storing { Url := r.Url, Depth := r.Depth - 1 }
              (mapAssetsAndLinks tokens config.url) :: post,
            fetched := s.fetched ++ [r.Url] } :=
        ⟨Step.fetchOk _ pre post { Url := r.Url, Depth := r.Depth - 1 } tokens hE rfl hf,
          raceFree_one _ _ hq1 hq2 rfl⟩
      have hstep2 : RaceFreeStep fetch config
          { s with
            tasks := pre ++ Task.storing { Url := r.Url, Depth := r.Depth - 1 }
              (mapAssetsAndLinks tokens config.url) :: post,
            fetched := s.fetched ++ [r.Url] }
          { Map := s.Map.set r.Url (mapAssetsAndLinks tokens config.url),
            tasks := pre ++ post ++ (mapAssetsAndLinks tokens config.url).Links.map
              (fun url => Task.called { Url := url, Depth := r.Depth - 1 }),
            fetched := s.fetched ++ [r.Url],
            exited := s.exited } :=
        ⟨Step.store _ pre post { Url := r.Url, Depth := r.Depth - 1 }
          (mapAssetsAndLinks tokens config.url) hE rfl,
          raceFree_of_quiet _ (quiet_append (quiet_append hq1 hq2) (quiet_children _ _))⟩
      rw [crawl_ok_result fetch config r w tokens hd hw hc' hf]
      obtain ⟨s', hsteps, h'⟩ := children_simulated fetch config (r.Depth - 1)
        (fun l w' pre' post' s0 hw' hp1 hp2 hM' hT' hF' hE' =>
          ih { Url := l, Depth := r.Depth - 1 } w' pre' post' s0
            (by show (r.Depth - 1).toNat = n; omega) hw' hp1 hp2 hM' hT' hF' hE')
        (mapAssetsAndLinks tokens config.url).Links
        { Map := w.Map.set r.Url (mapAssetsAndLinks tokens config.url),
          trace := w.trace ++ [Event.fetch r.Url] ++ [Event.store r.Url] ++
            (mapAssetsAndLinks tokens config.url).Links.map
              (fun url => Event.spawn { Url := url, Depth := r.Depth - 1 }),
          stdout := w.stdout, exit := w.exit }
        (pre ++ post)
        { Map := s.Map.set r.Url (mapAssetsAndLinks tokens config.url),
          tasks := pre ++ post ++ (mapAssetsAndLinks tokens config.url).Links.map
            (fun url => Task.called { Url := url, Depth := r.Depth - 1 }),
          fetched := s.fetched ++ [r.Url],
          exited := s.exited }
        hw (quiet_append hq1 hq2) (by rw [hM]) rfl
        (by
          show s.fetched ++ [r.Url] = _
          rw [hF]
          simp [World.fetched, List.filterMap_append, Event.fetchUrl, fetchUrl_spawns])
        hE
      exact ⟨s', Relation.ReflTransGen.trans
        (Relation.ReflTransGen.tail (Relation.ReflTransGen.tail
          (Relation.ReflTransGen.single henter) hstep1) hstep2) hsteps, h'⟩

theorem sequential_raceFree (fetch : Str → FetchResult) (config : Config) (seed : Str)
    (d : Int) :
    ∃ s, RaceFreeReachable fetch config seed d s ∧
      s.Map = (crawl fetch config { Url := seed, Depth := d } World.init).Map ∧
      s.fetched = (crawl fetch config { Url := seed, Depth := d } World.init).fetched ∧
      s.exited = (crawl fetch config { Url := seed, Depth := d } World.init).exit.isSome ∧
      ((crawl fetch config { Url := seed, Depth := d } World.init).exit = none →
        s.tasks = []) :=
  crawl_simulated fetch config d.toNat { Url := seed, Depth := d } World.init [] []
    (Pool.start seed d) rfl rfl rfl rfl rfl rfl rfl rfl

/-! ## The claims -/

/-- C1. A string is listed in `Links` exactly when the last attribute whose
candidate it is is an `href`, and in `Assets` exactly when that attribute is a
`src`; the attributes of the test and of the specification's scenario give the
expected sets. -/
theorem mapAssetsAndLinks_last_candidate :
    (∀ (t : List Attribute) (b s : Str),
      (s ∈ (mapAssetsAndLinks t b).Links ↔
        ∃ a, lastWithCandidate t b s = some a ∧ a.Key = "href".toList) ∧
      (s ∈ (mapAssetsAndLinks t b).Assets ↔
        ∃ a, lastWithCandidate t b s = some a ∧ a.Key = "src".toList)) ∧
    (∀ s, s ∈ (mapAssetsAndLinks testTokens testUrl).Links ↔
      s = "http://someurl.com".toList ∨ s = "http://someurl.com/about".toList) ∧
    (∀ s, s ∈ (mapAssetsAndLinks testTokens testUrl).Assets ↔
      s = "http://someurl.com/someimg.jpg".toList) ∧
    (∀ s, s ∈ (mapAssetsAndLinks scenarioTokens scenarioUrl).Links ↔
      s = "http://example.com/about".toList) ∧
    (∀ s, s ∈ (mapAssetsAndLinks scenarioTokens scenarioUrl).Assets ↔
      s = "http://cdn.com/a.png".toList) := by
  refine ⟨fun t b s => ⟨mem_Links_iff_last t b s, mem_Assets_iff_last t b s⟩, ?_, ?_, ?_, ?_⟩
  · intro s
    have h : (mapAssetsAndLinks testTokens testUrl).Links =
        ["http://someurl.com".toList, "http://someurl.com/about".toList] := by decide
    rw [h, List.mem_cons, List.mem_singleton]
  · intro s
    have h : (mapAssetsAndLinks testTokens testUrl).Assets =
        ["http://someurl.com/someimg.jpg".toList] := by decide
    rw [h, List.mem_singleton]
  · intro s
    have h : (mapAssetsAndLinks scenarioTokens scenarioUrl).Links =
        ["http://example.com/about".toList] := by decide
    rw [h, List.mem_singleton]
  · intro s
    have h : (mapAssetsAndLinks scenarioTokens scenarioUrl).Assets =
        ["http://cdn.com/a.png".toList] := by decide
    rw [h, List.mem_singleton]

/-- C8. The result of `mapAssetsAndLinks` records each URL at most once: no
entry of `Links` repeats, no entry of `Assets` repeats, and no URL is in both. -/
theorem mapAssetsAndLinks_dedup (t : List Attribute) (b : Str) :
    (mapAssetsAndLinks t b).Links.Nodup ∧ (mapAssetsAndLinks t b).Assets.Nodup ∧
      List.Disjoint (mapAssetsAndLinks t b).Links (mapAssetsAndLinks t b).Assets := by
  refine ⟨Links_nodup t b, Assets_nodup t b, ?_⟩
  intro s h1 h2
  rw [mem_Links_iff] at h1
  rw [mem_Assets_iff, h1] at h2
  revert h2
  decide

/-- C10. Normalisation is idempotent, and `sanitize x` is the part of `x`
before its first `?` with all leading and trailing `/` removed. -/
theorem sanitize_idempotent (x : Str) :
    sanitize (sanitize x) = sanitize x ∧ sanitize x = normalizeSpec x :=
  ⟨sanitize_idem x, sanitize_eq_normalizeSpec x⟩

/-- C2. Depth bound: every key of the registry after `crawl` of the seed with
depth `d`, started on the empty registry, is reached from the seed by a path of
at most `d` link-hops through recorded pages. -/
theorem crawl_depth_bound (fetch : Str → FetchResult) (config : Config) (seed : Str)
    (d : Int) (u : Str)
    (h : u ∈ (crawl fetch config { Url := seed, Depth := d } World.init).Map.keys) :
    ∃ k : Nat, (k : Int) ≤ d ∧
      Reach (crawl fetch config { Url := seed, Depth := d } World.init).Map seed k u := by
  obtain ⟨k, hk, hr⟩ := crawlFuel_reach fetch config seed d _ { Url := seed, Depth := d }
    World.init ⟨0, by simp, Reach.start⟩ (fun u hu => absurd hu (List.not_mem_nil u)) u h
  exact ⟨k, le_of_lt hk, hr⟩

/-- Witness of C2: on the small site crawled to depth 3, the page `/a` is
recorded, and it is within 3 hops of the seed. -/
theorem crawl_depth_bound_witness :
    "http://example.com/a".toList ∈
        (crawl siteFetch siteConfig { Url := siteConfig.url, Depth := 3 } World.init).Map.keys ∧
      ∃ k : Nat, (k : Int) ≤ 3 ∧
        Reach (crawl siteFetch siteConfig { Url := siteConfig.url, Depth := 3 } World.init).Map
          siteConfig.url k "http://example.com/a".toList :=
  ⟨by decide, crawl_depth_bound siteFetch siteConfig siteConfig.url 3 _ (by decide)⟩

/-- Counterexample to C3 as stated: on the small site crawled to depth 3 the
URL `/x`, which the seed and the page `/a` both list and whose fetch fails, is
fetched twice in the sequential run, which is a race-free run. -/
theorem failed_url_fetched_twice :
    (crawl siteFetch siteConfig { Url := siteConfig.url, Depth := siteConfig.depth }
        World.init).fetched.count "http://example.com/x".toList = 2 ∧
      ¬ (crawl siteFetch siteConfig { Url := siteConfig.url, Depth := siteConfig.depth }
        World.init).fetched.Nodup ∧
      ∃ s, RaceFreeReachable siteFetch siteConfig siteConfig.url siteConfig.depth s ∧
        s.fetched.count "http://example.com/x".toList = 2 := by
  refine ⟨by decide, by decide, ?_⟩
  obtain ⟨s, hs, _, hF, _⟩ := sequential_raceFree siteFetch siteConfig siteConfig.url
    siteConfig.depth
  refine ⟨s, hs, ?_⟩
  rw [hF]
  decide

/-- C3, amended. In every race-free run of `crawl` from the empty registry
(every interleaving of the goroutines in which no two of them are in flight for
the same URL at once, the sequential run among them), a URL whose fetch
succeeds occurs at most once in the log of fetched URLs. -/
theorem crawl_fetch_ok_once (fetch : Str → FetchResult) (config : Config) (seed : Str)
    (d : Int) (u : Str) (tokens : List Attribute) (h : fetch u = .ok tokens) :
    (∀ s, RaceFreeReachable fetch config seed d s → s.fetched.count u ≤ 1) ∧
      (crawl fetch config { Url := seed, Depth := d } World.init).fetched.count u ≤ 1 := by
  constructor
  · intro s hs
    have hI := FetchInv.of_raceFree hs
    have e : List.count u (List.filter (fun u => (fetch u).isOk) s.fetched)
        = List.count u s.fetched :=
      List.count_filter (by simp [h, FetchResult.isOk])
    rw [← e]
    exact count_le_one_of_nodup _ hI.okOnce u
  · have hB := crawl_books fetch config { Url := seed, Depth := d }
    rw [count_fetched_ok fetch _ hB u tokens h]
    exact count_le_one_of_nodup _ hB.1 u

/-- Witness of C3, amended: on the diamond crawled to depth 3 the page `/c`
answers `200 OK`, the recorded pages `/a` and `/b` both list it, and it is
fetched, once: in the sequential run, and in a race-free interleaved run with
the same log. -/
theorem crawl_fetch_ok_once_witness :
    diamondFetch "http://example.com/c".toList = .ok [] ∧
      ((crawl diamondFetch diamondConfig { Url := diamondConfig.url, Depth := 3 }
        World.init).Map.get? "http://example.com/a".toList).map PageMap.Links
          = some ["http://example.com/c".toList] ∧
      ((crawl diamondFetch diamondConfig { Url := diamondConfig.url, Depth := 3 }
        World.init).Map.get? "http://example.com/b".toList).map PageMap.Links
          = some ["http://example.com/c".toList] ∧
      "http://example.com/c".toList ∈
        (crawl diamondFetch diamondConfig { Url := diamondConfig.url, Depth := 3 }
          World.init).fetched ∧
      (crawl diamondFetch diamondConfig { Url := diamondConfig.url, Depth := 3 }
        World.init).fetched.count "http://example.com/c".toList ≤ 1 ∧
      ∃ s, RaceFreeReachable diamondFetch diamondConfig diamondConfig.url 3 s ∧
        "http://example.com/c".toList ∈ s.fetched ∧
        s.fetched.count "http://example.com/c".toList ≤ 1 := by
  have hthm := crawl_fetch_ok_once diamondFetch diamondConfig diamondConfig.url 3
    "http://example.com/c".toList [] (by decide)
  refine ⟨by decide, by decide, by decide, by decide, hthm.2, ?_⟩
  obtain ⟨s, hs, _, hF, _⟩ := sequential_raceFree diamondFetch diamondConfig
    diamondConfig.url 3
  refine ⟨s, hs, ?_, hthm.1 s hs⟩
  rw [hF]
  decide

/-- C4. A request whose URL is already a key of the registry makes `crawl`
return the world unchanged (no fetch, no store, no spawn); and a seed whose
fetch succeeds is stored exactly once and fetched exactly once, whatever links
lead back to it. -/
theorem crawl_visited_unchanged :
    (∀ (fetch : Str → FetchResult) (config : Config) (request : CrawlRequest) (w : World),
      request.Url ∈ w.Map.keys → crawl fetch config request w = w) ∧
    (∀ (fetch : Str → FetchResult) (config : Config) (seed : Str) (d : Int)
      (tokens : List Attribute), 1 ≤ d → fetch seed = .ok tokens →
      (crawl fetch config { Url := seed, Depth := d } World.init).stored.count seed = 1 ∧
      (crawl fetch config { Url := seed, Depth := d } World.init).fetched.count seed = 1) := by
  refine ⟨crawl_visited, ?_⟩
  intro fetch config seed d tokens hd hf
  have hB := crawl_books fetch config { Url := seed, Depth := d }
  have hk := crawl_records fetch config { Url := seed, Depth := d } World.init tokens hd rfl hf
  have hs : seed ∈ (crawl fetch config { Url := seed, Depth := d } World.init).stored :=
    (hB.2.1 seed).2 hk
  have hc := count_eq_one_of_nodup _ hB.1 seed hs
  refine ⟨hc, ?_⟩
  rw [count_fetched_ok fetch _ hB seed tokens hf]
  exact hc

/-- Witness of C4: a page that links to itself is recorded; crawling the link
back changes nothing, and the seed is stored and fetched exactly once. -/
theorem crawl_visited_unchanged_witness :
    "http://example.com".toList ∈
        (mapAssetsAndLinks [href "http://example.com", href "/about"]
          "http://example.com".toList).Links ∧
      crawl selfFetch { url := "http://example.com".toList, depth := 2 }
          { Url := "http://example.com".toList, Depth := 1 }
          (crawl selfFetch { url := "http://example.com".toList, depth := 2 }
            { Url := "http://example.com".toList, Depth := 2 } World.init) =
        crawl selfFetch { url := "http://example.com".toList, depth := 2 }
          { Url := "http://example.com".toList, Depth := 2 } World.init ∧
      (crawl selfFetch { url := "http://example.com".toList, depth := 2 }
          { Url := "http://example.com".toList, Depth := 2 } World.init).stored.count
        "http://example.com".toList = 1 :=
  ⟨by decide,
    crawl_visited_unchanged.1 selfFetch _ { Url := "http://example.com".toList, Depth := 1 } _
      (by decide),
    (crawl_visited_unchanged.2 selfFetch _ "http://example.com".toList 2
      [href "http://example.com", href "/about"] (by decide) (by decide)).1⟩

/-- C5. For a crawl started at the seed with the configured depth (at least 1),
the process exits, with code 1, exactly when the fetch of the seed fails in
transport; every request spawned in the run has a smaller depth than the
configured one; and on any such request a transport error or a non-200 answer
leaves the registry unchanged, spawns and stores nothing, and does not exit. -/
theorem seed_failure_fatal (fetch : Str → FetchResult) (config : Config)
    (h : 1 ≤ config.depth) :
    ((crawl fetch config { Url := config.url, Depth := config.depth } World.init).exit =
      if fetch config.url = .transportError then some 1 else none) ∧
    ((main fetch config).exitCode ≠ 0 ↔ fetch config.url = .transportError) ∧
    (∀ q ∈ (crawl fetch config { Url := config.url, Depth := config.depth }
        World.init).spawned, q.Depth < config.depth) ∧
    (∀ (request : CrawlRequest) (w : World), request.Depth < config.depth → w.exit = none →
      (fetch request.Url = .transportError ∨ fetch request.Url = .non200) →
      (crawl fetch config request w).Map = w.Map ∧
      (crawl fetch config request w).spawned = w.spawned ∧
      (crawl fetch config request w).stored = w.stored ∧
      (crawl fetch config request w).exit = none) := by
  have hexit := crawl_seed_exit fetch config h
  refine ⟨hexit, ?_, ?_, ?_⟩
  · unfold main
    simp only [hexit]
    by_cases hf : fetch config.url = .transportError
    · simp [hf]
    · simp [hf]
  · exact crawlFuel_spawned_depth fetch config config.depth _ _ World.init (le_refl _)
      (fun q hq => absurd hq (List.not_mem_nil q))
  · intro request w hd hw hf
    refine crawl_fail_frame fetch config request w hd hw ?_
    rcases hf with hf | hf <;> rw [hf] <;> rfl

/-- Witness of C5: with every fetch failing in transport, a crawl of depth 2
exits with code 1 at the seed, while the same failure on a request of depth 1
changes nothing and does not exit. -/
theorem seed_failure_fatal_witness :
    (crawl downFetch { url := "http://example.com".toList, depth := 2 }
        { Url := "http://example.com".toList, Depth := 2 } World.init).exit = some 1 ∧
      (crawl downFetch { url := "http://example.com".toList, depth := 2 }
        { Url := "http://example.com/about".toList, Depth := 1 } World.init).exit = none :=
  ⟨(seed_failure_fatal downFetch { url := "http://example.com".toList, depth := 2 }
      (by decide)).1,
    ((seed_failure_fatal downFetch { url := "http://example.com".toList, depth := 2 }
      (by decide)).2.2.2 { Url := "http://example.com/about".toList, Depth := 1 } World.init
      (by decide) rfl (Or.inl rfl)).2.2.2⟩

/-- Counterexample to C6 as stated: when the fetch of the seed answers 404, the
program exits with status 0 and prints the empty site map. -/
theorem seed_not_found_prints_empty_map :
    notFoundFetch scenarioUrl = .non200 ∧
      (main notFoundFetch { url := scenarioUrl, depth := 1 }).exitCode = 0 ∧
      (main notFoundFetch { url := scenarioUrl, depth := 1 }).stdout =
        [Output.siteMapJson []] ∧
      ¬ ((main notFoundFetch { url := scenarioUrl, depth := 1 }).exitCode ≠ 0 ∧
        (main notFoundFetch { url := scenarioUrl, depth := 1 }).stdout = []) := by
  decide

/-- C6, amended. If the crawl-time fetch of the seed answers with a status
other than 200, the program prints the empty site map and exits with status 0. -/
theorem seed_non200_empty_map (fetch : Str → FetchResult) (config : Config)
    (h : fetch config.url = .non200) :
    main fetch config = { exitCode := 0, stdout := [Output.siteMapJson []] } := by
  unfold main
  rw [crawl_eq]
  by_cases hd : config.depth ≤ 0
  · simp [World.init, hd]
  · simp [World.init, hd, GoMap.contains, GoMap.get?, h]

/-- Witness of C6, amended: the all-404 site of the counterexample. -/
theorem seed_non200_empty_map_witness :
    main notFoundFetch { url := scenarioUrl, depth := 1 } =
      { exitCode := 0, stdout := [Output.siteMapJson []] } :=
  seed_non200_empty_map notFoundFetch { url := scenarioUrl, depth := 1 } rfl

/-- Counterexample to C7 as stated: a seed with a query string has no leading
or trailing `/`, yet the link found below it does not have the seed as a
prefix. -/
theorem query_seed_link_not_prefixed :
    queryUrl.head? ≠ some '/' ∧ queryUrl.getLast? ≠ some '/' ∧
      (mapAssetsAndLinks queryTokens queryUrl).Links = ["http://example.com/s".toList] ∧
      ¬ ∀ s ∈ (mapAssetsAndLinks queryTokens queryUrl).Links, queryUrl <+: s := by
  decide

/-- C7, amended. For a base URL without `?` and without leading or trailing
`/`, every entry of `Links` has the base URL as a prefix, and so has the URL of
every request spawned by a crawl configured with that base URL. -/
theorem links_same_origin (t : List Attribute) (b : Str) (hq : '?' ∉ b)
    (hh : b.head? ≠ some '/') (hl : b.getLast? ≠ some '/') :
    (∀ s ∈ (mapAssetsAndLinks t b).Links, b <+: s) ∧
    (∀ (fetch : Str → FetchResult) (depth : Int) (request : CrawlRequest),
      ∀ q ∈ (crawl fetch { url := b, depth := depth } request World.init).spawned,
        b <+: q.Url) := by
  refine ⟨fun s hs => Links_sameOrigin t b hq hh hl s hs, ?_⟩
  intro fetch depth request q hq'
  obtain ⟨tokens, ht⟩ := crawlFuel_spawned_links fetch { url := b, depth := depth } _ request
    World.init (fun q hq => absurd hq (List.not_mem_nil q)) q hq'
  exact Links_sameOrigin tokens b hq hh hl _ ht

/-- Witness of C7, amended: on the page of the test, whose link to another
origin is dropped, the link `/about` has the base URL as a prefix. -/
theorem links_same_origin_witness :
    '?' ∉ testUrl ∧ testUrl.head? ≠ some '/' ∧ testUrl.getLast? ≠ some '/' ∧
      "http://someurl.com/about".toList ∈ (mapAssetsAndLinks testTokens testUrl).Links ∧
      testUrl <+: "http://someurl.com/about".toList :=
  ⟨by decide, by decide, by decide, by decide,
    (links_same_origin testTokens testUrl (by decide) (by decide) (by decide)).1 _
      (by decide)⟩

/-- C9 fails on the code: for a base URL without `?` and without a trailing
`/`, the attribute `href="/?q=1"` yields a link that ends with `/`. -/
theorem root_query_link_keeps_slash :
    '?' ∉ scenarioUrl ∧ scenarioUrl.getLast? ≠ some '/' ∧
      (mapAssetsAndLinks rootQueryTokens scenarioUrl).Links = ["http://example.com/".toList] ∧
      ¬ ∀ s ∈ (mapAssetsAndLinks rootQueryTokens scenarioUrl).Links, s.getLast? ≠ some '/' := by
  decide

/-- The depth bound of C2 under every interleaving of the goroutines: in every
state an interleaved run of `crawl(seed, d)` reaches, every key of the registry
is within `d` link-hops of the seed through recorded pages. -/
theorem interleaved_depth_bound (fetch : Str → FetchResult) (config : Config) (seed : Str)
    (d : Int) (s : Pool) (h : Reachable fetch config seed d s) (u : Str)
    (hu : u ∈ s.Map.keys) : ∃ k : Nat, (k : Int) ≤ d ∧ Reach s.Map seed k u := by
  obtain ⟨k, hk, hr⟩ := (PoolInv.reachable h).keys u hu
  exact ⟨k, le_of_lt hk, hr⟩

/-- Witness of the interleaved depth bound: three steps of the goroutine of the
seed lead to `selfPool`, whose registry holds the seed. -/
theorem interleaved_depth_bound_witness :
    Reachable selfFetch { url := "http://example.com".toList, depth := 1 }
        "http://example.com".toList 1 selfPool ∧
      ∃ k : Nat, (k : Int) ≤ 1 ∧
        Reach selfPool.Map "http://example.com".toList k "http://example.com".toList :=
  have h1 : Step selfFetch { url := "http://example.com".toList, depth := 1 }
      (Pool.start "http://example.com".toList 1)
      { Map := [], tasks := [Task.fetching { Url := "http://example.com".toList, Depth := 0 }],
        fetched := [], exited := false } :=
    Step.enter (Pool.start "http://example.com".toList 1) [] []
      { Url := "http://example.com".toList, Depth := 1 } rfl rfl (by decide) rfl
  have h2 : Step selfFetch { url := "http://example.com".toList, depth := 1 }
      { Map := [], tasks := [Task.fetching { Url := "http://example.com".toList, Depth := 0 }],
        fetched := [], exited := false }
      { Map := [],
        tasks := [Task.storing { Url := "http://example.com".toList, Depth := 0 }
          (mapAssetsAndLinks [href "http://example.com", href "/about"]
            "http://example.com".toList)],
        fetched := ["http://example.com".toList], exited := false } :=
    Step.fetchOk _ [] [] { Url := "http://example.com".toList, Depth := 0 }
      [href "http://example.com", href "/about"] rfl rfl (by decide)
  have h3 : Step selfFetch { url := "http://example.com".toList, depth := 1 }
      { Map := [],
        tasks := [Task.storing { Url := "http://example.com".toList, Depth := 0 }
          (mapAssetsAndLinks [href "http://example.com", href "/about"]
            "http://example.com".toList)],
        fetched := ["http://example.com".toList], exited := false }
      selfPool :=
    Step.store _ [] [] { Url := "http://example.com".toList, Depth := 0 }
      (mapAssetsAndLinks [href "http://example.com", href "/about"]
        "http://example.com".toList) rfl rfl
  have hR : Reachable selfFetch { url := "http://example.com".toList, depth := 1 }
      "http://example.com".toList 1 selfPool :=
    Relation.ReflTransGen.tail (Relation.ReflTransGen.tail (Relation.ReflTransGen.single h1) h2) h3
  ⟨hR, interleaved_depth_bound selfFetch _ "http://example.com".toList 1 selfPool hR _
    (by decide)⟩

/-- With no depth left, `crawl` on the empty registry returns at once: nothing
is fetched and the registry stays empty, whatever the seed answers. -/
theorem crawl_depth_exhausted (fetch : Str → FetchResult) (config : Config) (seed : Str)
    (d : Int) (h : d ≤ 0) :
    crawl fetch config { Url := seed, Depth := d } World.init = World.init := by
  rw [crawl_eq]
  simp [World.init, h]

/-- Witness of the exhausted depth: depth 0 on the small site. -/
theorem crawl_depth_exhausted_witness :
    crawl siteFetch siteConfig { Url := siteConfig.url, Depth := 0 } World.init = World.init :=
  crawl_depth_exhausted siteFetch siteConfig siteConfig.url 0 (by decide)

/-- An `href` whose value is exactly `/` leaves the `objects` map as it is: a
reference to the site root never becomes a link entry. -/
theorem href_root_skipped (b ns : Str) (objects : GoMap Str) :
    classifyToken b objects { Namespace := ns, Key := "href".toList, Val := "/".toList }
      = objects := by
  unfold classifyToken
  rw [if_pos rfl, if_pos rfl]

/-- The sequential run is one of the interleaved runs, and a race-free one: the
registry that `crawl(seed, d)` returns on the empty registry, with its log of
fetches and its exit status, is a state the interleaved run reaches without a
race; and when the process has not exited no goroutine is left. -/
theorem sequential_run_interleaved (fetch : Str → FetchResult) (config : Config)
    (seed : Str) (d : Int) :
    ∃ tasks, Reachable fetch config seed d
        { Map := (crawl fetch config { Url := seed, Depth := d } World.init).Map,
          tasks := tasks,
          fetched := (crawl fetch config { Url := seed, Depth := d } World.init).fetched,
          exited := (crawl fetch config { Url := seed, Depth := d } World.init).exit.isSome } ∧
      RaceFreeReachable fetch config seed d
        { Map := (crawl fetch config { Url := seed, Depth := d } World.init).Map,
          tasks := tasks,
          fetched := (crawl fetch config { Url := seed, Depth := d } World.init).fetched,
          exited := (crawl fetch config { Url := seed, Depth := d } World.init).exit.isSome } ∧
      ((crawl fetch config { Url := seed, Depth := d } World.init).exit = none →
        tasks = []) := by
  obtain ⟨s, hs, hM, hF, hE, hT⟩ := sequential_raceFree fetch config seed d
  obtain ⟨m, ts, fs, ex⟩ := s
  simp only at hM hF hE hT
  subst hM hF hE
  exact ⟨ts, hs.to_reachable, hs, hT⟩

/-- With the race the single fetch fails: on the diamond the goroutines of `/a`
and `/b` can both pass the registry test for `/c` before either page `/c` is
written, and then `/c`, which answers `200 OK`, is fetched twice. -/
theorem raced_url_fetched_twice :
    ∃ s, Reachable diamondFetch diamondConfig diamondConfig.url 3 s ∧
      s.fetched.count "http://example.com/c".toList = 2 ∧ ¬ s.RaceFree := by
  have h1 := Relation.ReflTransGen.single
    (@Step.enter diamondFetch diamondConfig (Pool.start diamondConfig.url 3) [] []
      { Url := "http://example.com".toList, Depth := 3 } rfl rfl (by decide) rfl)
  have h2 := h1.tail (@Step.fetchOk diamondFetch diamondConfig _ [] []
    { Url := "http://example.com".toList, Depth := 2 } [href "/a", href "/b"] rfl
    (by decide) (by decide))
  have h3 := h2.tail (@Step.store diamondFetch diamondConfig _ [] []
    { Url := "http://example.com".toList, Depth := 2 }
    (mapAssetsAndLinks [href "/a", href "/b"] diamondConfig.url) rfl (by decide))
  have h4 := h3.tail (@Step.enter diamondFetch diamondConfig _ []
    [Task.called { Url := "http://example.com/b".toList, Depth := 2 }]
    { Url := "http://example.com/a".toList, Depth := 2 } rfl (by decide) (by decide)
    (by decide))
  have h5 := h4.tail (@Step.enter diamondFetch diamondConfig _
    [Task.fetching { Url := "http://example.com/a".toList, Depth := 1 }] []
    { Url := "http://example.com/b".toList, Depth := 2 } rfl (by decide) (by decide)
    (by decide))
  have h6 := h5.tail (@Step.fetchOk diamondFetch diamondConfig _ []
    [Task.fetching { Url := "http://example.com/b".toList, Depth := 1 }]
    { Url := "http://example.com/a".toList, Depth := 1 } [href "/c"] rfl (by decide)
    (by decide))
  have h7 := h6.tail (@Step.fetchOk diamondFetch diamondConfig _
    [Task.storing { Url := "http://example.com/a".toList, Depth := 1 }
      (mapAssetsAndLinks [href "/c"] diamondConfig.url)] []
    { Url := "http://example.com/b".toList, Depth := 1 } [href "/c"] rfl (by decide)
    (by decide))
  have h8 := h7.tail (@Step.store diamondFetch diamondConfig _ []
    [Task.storing { Url := "http://example.com/b".toList, Depth := 1 }
      (mapAssetsAndLinks [href "/c"] diamondConfig.url)]
    { Url := "http://example.com/a".toList, Depth := 1 }
    (mapAssetsAndLinks [href "/c"] diamondConfig.url) rfl (by decide))
  have h9 := h8.tail (@Step.store diamondFetch diamondConfig _ []
    [Task.called { Url := "http://example.com/c".toList, Depth := 1 }]
    { Url := "http://example.com/b".toList, Depth := 1 }
    (mapAssetsAndLinks [href "/c"] diamondConfig.url) rfl (by decide))
  have h10 := h9.tail (@Step.enter diamondFetch diamondConfig _ []
    [Task.called { Url := "http://example.com/c".toList, Depth := 1 }]
    { Url := "http://example.com/c".toList, Depth := 1 } rfl (by decide) (by decide)
    (by decide))
  have h11 := h10.tail (@Step.enter diamondFetch diamondConfig _
    [Task.fetching { Url := "http://example.com/c".toList, Depth := 0 }] []
    { Url := "http://example.com/c".toList, Depth := 1 } rfl (by decide) (by decide)
    (by decide))
  have h12 := h11.tail (@Step.fetchOk diamondFetch diamondConfig _ []
    [Task.fetching { Url := "http://example.com/c".toList, Depth := 0 }]
    { Url := "http://example.com/c".toList, Depth := 0 } [] rfl (by decide) (by decide))
  have h13 := h12.tail (@Step.fetchOk diamondFetch diamondConfig _
    [Task.storing { Url := "http://example.com/c".toList, Depth := 0 }
      (mapAssetsAndLinks [] diamondConfig.url)] []
    { Url := "http://example.com/c".toList, Depth := 0 } [] rfl (by decide) (by decide))
  refine ⟨_, h13, by decide, ?_⟩
  unfold Pool.RaceFree Pool.inFlight
  decide

end SiteFetch
